import Mathlib

/-!
Verification of the dependency-aware documentation engine of DocsGenAI.

This file is a shallow embedding, in Lean 4, of the parts of the repository
that the verified claims talk about:

* src/genai_docs/core_types.py        (ModuleNode edge operations, repr)
* src/genai_docs/import_extractor.py  (ImportExtractor.extract_imports)
* src/genai_docs/import_analyzer.py   (ImportAnalyzer: classification, project imports)
* src/genai_docs/ast_analyzer.py      (ASTAnalyzer.analyze_module import facet)
* src/genai_docs/dependency_graph_builder.py (DependencyGraphBuilder)
* src/genai_docs/dependency_analyzer.py      (DependencyAnalyzer)
* src/genai_docs/documentation_generator.py  (dependency-aware scheduler)
* src/genai_docs/llm_client.py        (LLMClient.generate_documentation and the
                                       two prompt builders with their signatures)

Modelling conventions:

* Python file-system paths are lists of path components (type List String);
  the string key str(path) used by the Python dictionaries is identified with
  the component list itself.
* Mutable ModuleNode objects are modelled by a store (List NodeData) in which
  a node is identified by its path, exactly as ModuleNode.__eq__ and
  ModuleNode.__hash__ identify nodes by path.  Mutation of a node becomes a
  pointwise update of the store.
* Python exceptions are values of the type PyErr; a function that can raise
  returns Except PyErr.  The networkx exception hierarchy fact that matters
  here (NetworkXUnfeasible derives NetworkXAlgorithmError, and is therefore
  NOT an instance of NetworkXError) is recorded where it is used.
* Python source text cannot be parsed inside the embedding, so a source file
  is abstracted to the one outcome that the repository inspects: either
  ast.parse succeeds and the ImportExtractor visitor yields a list of
  ImportStatement values, or ast.parse raises SyntaxError with a message.
* External collaborators (the generative backend, the persistence sink, the
  cache and the physical file system) are parameters of the scheduler, as in
  the source they are injected objects (llm_client, file_manager, cache).
-/

/-- Python exceptions that the embedded code can raise.  Each constructor
carries the exception message, which is what str(e) returns. -/
inductive PyErr where
  | valueError (msg : String)
  | networkXUnfeasible (msg : String)
  | typeError (msg : String)
  | documentationError (msg : String)
  | runtimeError (msg : String)
  | parseError (msg : String)
  | osError (msg : String)
deriving Repr, DecidableEq

/-- str(e) for an embedded Python exception: its message. -/
def PyErr.str : PyErr → String
  | .valueError m => m
  | .networkXUnfeasible m => m
  | .typeError m => m
  | .documentationError m => m
  | .runtimeError m => m
  | .parseError m => m
  | .osError m => m

/-- core_types.ImportStatement (a dataclass).  Field names are the camelCase
renderings of the Python attribute names module_name, alias, from_import,
imported_items, line_number, is_relative, relative_level. -/
structure ImportStatement where
  moduleName : String
  aliasName : Option String := none
  fromImport : Bool := false
  importedItems : List String := []
  lineNumber : Nat := 0
  isRelative : Bool := false
  relativeLevel : Nat := 0
deriving Repr, DecidableEq

/-- ImportStatement.__repr__ from core_types.py lines 35 to 40. -/
def ImportStatement.reprStr (s : ImportStatement) : String :=
  if s.fromImport then
    let items := if s.importedItems = [] then "*" else String.intercalate ", " s.importedItems
    "from " ++ s.moduleName ++ " import " ++ items
  else
    let aliasPart := match s.aliasName with
      | some a => " as " ++ a
      | none => ""
    "import " ++ s.moduleName ++ aliasPart

/-- Abstraction of a Python source text, reduced to the single aspect the
repository inspects: ast.parse either succeeds, in which case the
ImportExtractor visitor produces a list of ImportStatement values, or it
raises SyntaxError with a message.  (IndentationError is a subclass of
SyntaxError, so one constructor covers both.) -/
inductive PySource where
  | parsed (stmts : List ImportStatement)
  | invalid (msg : String)
deriving Repr, DecidableEq

/-- core_types.ModuleNode, flattened.  The children list of the Python
dataclass is represented by the ModTree structure below; the fields
resolved_imports, documentation_state and dependency_context are carried by
the dataclass but are not read or written by any operation this file embeds,
so they are omitted.  The content attribute is Option PySource, where none
stands for the falsy Python values None and the empty string (both take the
read-from-file branch of the code that inspects content). -/
structure NodeData where
  path : List String
  name : String
  isPackage : Bool := false
  isRoot : Bool := false
  content : Option PySource := none
  documentation : Option String := none
  processed : Bool := false
  dependencies : List (List String) := []
  dependents : List (List String) := []
  importStatements : List ImportStatement := []
  cycleGroup : Option (List (List String)) := none
  isCycleRepresentative : Bool := false
deriving Repr, DecidableEq

/-- The heap of ModuleNode objects of one run, as a list in creation order.
A node is identified by its path (ModuleNode.__eq__ / __hash__). -/
abbrev Store := List NodeData

/-- Dictionary lookup by path (DependencyGraph.get_node; also the object
identity map of the heap model). -/
def lookupNode (s : Store) (p : List String) : Option NodeData :=
  s.find? (fun n => n.path = p)

/-- Apply f to a node exactly when its path matches p (the pointwise view
of mutating the object identified by p). -/
def pathGuard (p : List String) (f : NodeData → NodeData) (n : NodeData) : NodeData :=
  if n.path = p then f n else n

/-- Pointwise mutation of the node with the given path. -/
def updateNode (s : Store) (p : List String) (f : NodeData → NodeData) : Store :=
  s.map (pathGuard p f)

/-- The mutation add_dependency performs on the source node: append the
target to the dependency list when absent (core_types.py lines 106 to 107). -/
def addDepSrc (b : List String) (n : NodeData) : NodeData :=
  if b ∈ n.dependencies then n else { n with dependencies := n.dependencies ++ [b] }

/-- The mutation add_dependency performs on the target node: append the
source to the dependent list when absent (core_types.py lines 108 to 109). -/
def addDepDst (a : List String) (n : NodeData) : NodeData :=
  if a ∈ n.dependents then n else { n with dependents := n.dependents ++ [a] }

/-- The mutation remove_dependency performs on the source node: guarded
list.remove of the target, deleting the first occurrence (lines 113 to 114). -/
def removeDepSrc (b : List String) (n : NodeData) : NodeData :=
  if b ∈ n.dependencies then { n with dependencies := n.dependencies.erase b } else n

/-- The mutation remove_dependency performs on the target node: guarded
list.remove of the source (core_types.py lines 115 to 116). -/
def removeDepDst (a : List String) (n : NodeData) : NodeData :=
  if a ∈ n.dependents then { n with dependents := n.dependents.erase a } else n

/-- ModuleNode.add_dependency (core_types.py lines 104 to 109): the two
guarded appends happen in this order on the evolving heap. -/
def addDependency (s : Store) (a b : List String) : Store :=
  updateNode (updateNode s a (addDepSrc b)) b (addDepDst a)

/-- ModuleNode.remove_dependency (core_types.py lines 111 to 116). -/
def removeDependency (s : Store) (a b : List String) : Store :=
  updateNode (updateNode s a (removeDepSrc b)) b (removeDepDst a)

/-- One edge mutation of the heap: an add_dependency or remove_dependency
call with the two participating nodes given by path. -/
inductive EdgeOp where
  | add (a b : List String)
  | remove (a b : List String)
deriving Repr, DecidableEq

def applyEdgeOp (s : Store) : EdgeOp → Store
  | .add a b => addDependency s a b
  | .remove a b => removeDependency s a b

def applyEdgeOps (s : Store) : List EdgeOp → Store
  | [] => s
  | op :: ops => applyEdgeOps (applyEdgeOp s op) ops

/-- The dependency list of the node with path p (empty when absent). -/
def depsAt (s : Store) (p : List String) : List (List String) :=
  ((lookupNode s p).map (fun n => n.dependencies)).getD []

/-- The dependent list of the node with path p (empty when absent). -/
def depdAt (s : Store) (p : List String) : List (List String) :=
  ((lookupNode s p).map (fun n => n.dependents)).getD []

def pathsOf (s : Store) : List (List String) := s.map (fun n => n.path)

/-- The bidirectional edge invariant of section 3 of the specification:
B is in the dependency list of A exactly when A is in the dependent list
of B, for all nodes A and B of the heap. -/
def EdgeSym (s : Store) : Prop :=
  ∀ p q, p ∈ pathsOf s → q ∈ pathsOf s → (q ∈ depsAt s p ↔ p ∈ depdAt s q)

/-- Well-formedness of a heap of nodes: paths are pairwise distinct (object
identity is well defined), the edge lists carry no duplicates (as guaranteed
by the guarded appends), and the symmetry invariant holds.  A freshly built
tree of nodes, whose edge lists are all empty, is well formed. -/
def WfStore (s : Store) : Prop :=
  (pathsOf s).Nodup ∧ EdgeSym s ∧ ∀ n ∈ s, n.dependencies.Nodup ∧ n.dependents.Nodup

/-!  The name graph that DependencyAnalyzer builds.

Both _detect_cycles and _generate_topological_order convert the
DependencyGraph to a networkx DiGraph whose vertices are the node NAMES:
first every node name is added, then for every node and every entry dep of
its dependency list the directed edge (node.name, dep.name) is added.
networkx ignores repeated insertions of the same vertex or edge, so the
embedding deduplicates keeping the first occurrence, which preserves the
insertion order that networkx iterates in.  -/

/-- Deduplication keeping the first occurrence, as a Python dict does. -/
def dedupFirst {α : Type} [DecidableEq α] (l : List α) : List α :=
  l.foldl (fun acc x => if x ∈ acc then acc else acc ++ [x]) []

/-- A networkx DiGraph over node names. -/
structure NameGraph where
  vertices : List String
  edges : List (String × String)
deriving Repr, DecidableEq

/-- The DiGraph that _detect_cycles and _generate_topological_order both
build from a DependencyGraph (dependency_analyzer.py lines 57 to 67 and
103 to 113).  An edge endpoint is the name of the dependency node, looked
up in the heap; nx.add_edge would also insert a missing endpoint as a
vertex, which the trailing flatMap reproduces. -/
def nameGraphOf (s : Store) : NameGraph :=
  let rawEdges := s.flatMap (fun n =>
    n.dependencies.map (fun p => (n.name, ((lookupNode s p).map (fun d => d.name)).getD "")))
  { vertices := dedupFirst (s.map (fun n => n.name) ++ rawEdges.flatMap (fun e => [e.1, e.2])),
    edges := dedupFirst rawEdges }

/-- The message of the exception nx.topological_sort raises on a cyclic
graph.  Its class is NetworkXUnfeasible. -/
def nxUnfeasibleMsg : String := "Graph contains a cycle or graph changed during iteration"

/-- One vertex with no incoming edge from the remaining vertices, i.e. a
vertex of in-degree zero of the induced subgraph (the next vertex Kahn
style topological sorting can emit). -/
def pickReady (remaining : List String) (edges : List (String × String)) : Option String :=
  remaining.find? (fun n => !(edges.any (fun e => e.2 = n && decide (e.1 ∈ remaining))))

/-- Kahn style topological sort, the algorithm behind nx.topological_sort:
repeatedly emit a vertex of in-degree zero of the remaining subgraph; when
none exists and vertices remain, the graph is cyclic and
NetworkXUnfeasible is raised.  nx breaks ties between simultaneously ready
vertices by an internal queue order; the claims verified here are
invariant under that tie break, and the embedding fixes the deterministic
choice of the first ready vertex in insertion order. -/
def kahnGo (edges : List (String × String)) : Nat → List String → Except PyErr (List String)
  | _, [] => .ok []
  | 0, _ :: _ => .error (.networkXUnfeasible nxUnfeasibleMsg)
  | fuel + 1, remaining =>
    match pickReady remaining edges with
    | none => .error (.networkXUnfeasible nxUnfeasibleMsg)
    | some n =>
      match kahnGo edges fuel (remaining.erase n) with
      | .ok rest => .ok (n :: rest)
      | .error e => .error e

/-- nx.topological_sort over a NameGraph, forced to a list. -/
def nxTopologicalSort (g : NameGraph) : Except PyErr (List String) :=
  kahnGo g.edges g.vertices.length g.vertices

/-- Directed DFS enumeration of the simple cycles through the start vertex s
that otherwise only visit vertices of the allowed set, the per-start step
of nx.simple_cycles.  visited is the reversed path from s to the current
vertex; a cycle is emitted when an edge back to s is found. -/
def cyclePathsGo (edges : List (String × String)) (allowed : List String) (s : String) :
    Nat → String → List String → List (List String)
  | 0, _, _ => []
  | fuel + 1, current, visited =>
    ((edges.filter (fun e => e.1 = current)).map (fun e => e.2)).flatMap (fun w =>
      if w = s then [visited.reverse]
      else if w ∈ visited then []
      else if w ∈ allowed then cyclePathsGo edges allowed s fuel w (w :: visited)
      else [])

/-- nx.simple_cycles: every elementary circuit of the graph, reported
exactly once.  The canonical enumeration starts each cycle at its earliest
vertex in insertion order and only travels through later vertices, which
is the standard Johnson style canonicalisation; nx reports each circuit
once in some rotation, and the verified claims are invariant under the
choice of rotation. -/
def simpleCyclesGo (edges : List (String × String)) (fuel : Nat) : List String → List (List String)
  | [] => []
  | s :: rest => cyclePathsGo edges rest s fuel s [s] ++ simpleCyclesGo edges fuel rest

def nxSimpleCycles (g : NameGraph) : List (List String) :=
  simpleCyclesGo g.edges (g.vertices.length + 1) g.vertices

/-- DependencyGraph.get_node_by_name (core_types.py lines 201 to 206):
the first node of the heap with the given name. -/
def getNodeByName (s : Store) (name : String) : Option NodeData :=
  s.find? (fun n => n.name = name)

/-- DependencyAnalyzer._detect_cycles (dependency_analyzer.py lines 45 to
84): enumerate the simple cycles of the name graph, map each name back to a
node through get_node_by_name dropping unresolved names, and keep the
nonempty groups.  The function reads the heap and returns the cycle list;
it assigns neither cycle_group nor is_cycle_representative on any node. -/
def detectCycles (s : Store) : List (List NodeData) :=
  (nxSimpleCycles (nameGraphOf s)).filterMap (fun c =>
    let ms := c.filterMap (getNodeByName s)
    if ms = [] then none else some ms)

/-- DependencyAnalyzer._generate_topological_order (dependency_analyzer.py
lines 86 to 131).  nx.topological_sort raises NetworkXUnfeasible on a
cyclic graph; the handler of the source is except nx.NetworkXError, and in
the networkx exception hierarchy NetworkXUnfeasible derives
NetworkXAlgorithmError, not NetworkXError, so the handler does not match
and the exception propagates unchanged; the ValueError conversion guarded
by it is unreachable. -/
def generateTopologicalOrder (s : Store) : Except PyErr (List NodeData) :=
  match nxTopologicalSort (nameGraphOf s) with
  | .ok names => .ok (names.filterMap (getNodeByName s))
  | .error e =>
    match e with
    | .networkXUnfeasible _ => .error e
    | .valueError _ => .error e
    | _ => .error e

/-- Python sorted with key len(x.dependencies): a stable merge sort by
ascending dependency count. -/
def sortByDepCount (l : List NodeData) : List NodeData :=
  l.mergeSort (fun a b => a.dependencies.length ≤ b.dependencies.length)

/-- DependencyAnalyzer.get_documentation_order (dependency_analyzer.py
lines 177 to 192): try the topological order and fall back to dependency
count order on ValueError.  Because the cyclic case raises
NetworkXUnfeasible rather than ValueError, the fallback arm is dead. -/
def getDocumentationOrder (s : Store) : Except PyErr (List NodeData) :=
  match generateTopologicalOrder s with
  | .ok l => .ok l
  | .error (.valueError _) => .ok (sortByDepCount s)
  | .error e => .error e

/-- DependencyAnalyzer.get_cycle_representatives (dependency_analyzer.py
lines 194 to 213): for each detected cycle, the member with the most
dependencies; the Python max returns the first of the maximal members.
The is_cycle_representative flag is not written. -/
def maxByDepCount (l : List NodeData) : Option NodeData :=
  l.foldl (fun acc n =>
    match acc with
    | none => some n
    | some m => if n.dependencies.length > m.dependencies.length then some n else some m)
    none

def getCycleRepresentatives (s : Store) : List NodeData :=
  (detectCycles s).filterMap (fun c => if c = [] then none else maxByDepCount c)

def freshNodeA : NodeData := { path := ["proj", "a.py"], name := "a" }

def freshNodeB : NodeData := { path := ["proj", "b.py"], name := "b" }

def c9Ops : List EdgeOp :=
  [.add ["proj", "a.py"] ["proj", "b.py"], .remove ["proj", "a.py"] ["proj", "b.py"],
   .add ["proj", "a.py"] ["proj", "b.py"], .add ["proj", "b.py"] ["proj", "a.py"]]

def c10NodeA : NodeData :=
  { path := ["proj", "a.py"], name := "a", dependencies := [["proj", "b.py"]] }

def c10NodeB : NodeData :=
  { path := ["proj", "b.py"], name := "b", dependents := [["proj", "a.py"]] }

/-!  Claims C1 to C3: concrete behaviour of the graph analyzer. -/

def depNodeA : NodeData :=
  { path := ["proj", "a.py"], name := "a", dependencies := [["proj", "b.py"]],
    dependents := [] }

def depNodeB : NodeData :=
  { path := ["proj", "b.py"], name := "b", dependents := [["proj", "a.py"]] }

def cycNodeA : NodeData :=
  { path := ["proj", "a.py"], name := "a", dependencies := [["proj", "b.py"]],
    dependents := [["proj", "b.py"]] }

def cycNodeB : NodeData :=
  { path := ["proj", "b.py"], name := "b", dependencies := [["proj", "a.py"]],
    dependents := [["proj", "a.py"]] }

def ringNodeA : NodeData :=
  { path := ["proj", "a.py"], name := "a", dependencies := [["proj", "b.py"]],
    dependents := [["proj", "c.py"]] }

def ringNodeB : NodeData :=
  { path := ["proj", "b.py"], name := "b", dependencies := [["proj", "c.py"]],
    dependents := [["proj", "a.py"]] }

def ringNodeC : NodeData :=
  { path := ["proj", "c.py"], name := "c", dependencies := [["proj", "a.py"]],
    dependents := [["proj", "b.py"]] }

/-!  llm_client.py: the generation backend wrapper. -/

/-- The response object of the generative backend, reduced to the shape
generate_documentation inspects: the candidate list, the optional content
of the first candidate, and its part texts. -/
structure LLMContent where
  parts : List String
deriving Repr, DecidableEq

structure LLMCandidate where
  content : Option LLMContent
deriving Repr, DecidableEq

structure LLMResponse where
  candidates : List LLMCandidate
deriving Repr, DecidableEq

/-- One backend: attempt number to outcome; an error value is the message
of the exception model.generate_content raised on that attempt.  Indexing
by attempt number lets a theorem exhibit a backend whose first call fails
while a second call would succeed. -/
def LLMBackend : Type := Nat → Except String LLMResponse

/-- LLMClient.generate_documentation (llm_client.py lines 36 to 71),
returning the result together with the number of backend invocations
performed.  The source makes a single call to model.generate_content with
no retry loop, no backoff and no re-raise: a raised backend exception or a
malformed or empty response produces a returned string that starts with
the marker Error:, and only an unconfigured client raises (RuntimeError).
The truthiness test of the source (candidates nonempty, content not None,
parts nonempty) selects the text of the first part of the first
candidate. -/
def generateDocumentation (modelConfigured : Bool) (backend : LLMBackend) :
    Except PyErr String × Nat :=
  if !modelConfigured then
    (.error (.runtimeError "LLM client not properly configured"), 0)
  else
    match backend 0 with
    | .error e => (.ok ("Error: Failed to generate documentation: " ++ e), 1)
    | .ok resp =>
      match resp.candidates with
      | [] => (.ok "Error: LLM response structure unexpected or empty", 1)
      | c :: _ =>
        match c.content with
        | none => (.ok "Error: LLM response structure unexpected or empty", 1)
        | some content =>
          match content.parts with
          | [] => (.ok "Error: LLM response structure unexpected or empty", 1)
          | p :: _ => (.ok p, 1)

/-- A backend whose first attempt raises and whose second attempt would
return a well-formed response: a retrying client would succeed on it. -/
def flakyBackend : LLMBackend := fun attempt =>
  if attempt = 0 then .error "transient boom"
  else .ok { candidates := [{ content := some { parts := ["recovered documentation"] } }] }

/-!  Import extraction and classification
     (import_extractor.py, import_analyzer.py, ast_analyzer.py). -/

/-- str(Path) for a component-list path. -/
def pathStr (p : List String) : String := String.intercalate "/" p

/-- ImportExtractor.extract_imports (import_extractor.py lines 66 to 85):
parse and visit; invalid syntax is re-raised as SyntaxError with the
prefix Invalid Python syntax.  This is the strict single-file behaviour:
there is no lenient branch in this function. -/
def extractImports : PySource → Except PyErr (List ImportStatement)
  | .parsed stmts => .ok stmts
  | .invalid m => .error (.parseError ("Invalid Python syntax: " ++ m))

/-- The import facet of ASTAnalyzer.analyze_module (ast_analyzer.py lines
158 to 190): parse_python_code returns None on a syntax error, in which
case the analysis result carries an empty import list; otherwise the
extractor output is rendered through repr. -/
def analyzeModuleImports : PySource → List String
  | .parsed stmts => stmts.map ImportStatement.reprStr
  | .invalid _ => []

/-- ImportAnalyzer.extract_imports_from_file (import_analyzer.py lines 35
to 56): read the file (the file system is a parameter) and extract;
a missing file becomes OSError. -/
def extractImportsFromFile (fs : List String → Option PySource) (p : List String) :
    Except PyErr (List ImportStatement) :=
  match fs p with
  | none => .error (.osError ("File not found: " ++ pathStr p))
  | some src => extractImports src

/-- ImportAnalyzer.analyze_project_imports (import_analyzer.py lines 245
to 272): per node, extract from the in-memory content when truthy and from
the file otherwise; the first SyntaxError or OSError aborts the whole
analysis (nothing catches it).  The external-modules bookkeeping of the
source only feeds get_external_dependencies and is omitted. -/
def extractForNode (fs : List String → Option PySource) (n : NodeData) :
    Except PyErr (List ImportStatement) :=
  match n.content with
  | some src => extractImports src
  | none => extractImportsFromFile fs n.path

def analyzeProjectImports (fs : List String → Option PySource) :
    List NodeData → Except PyErr (List (List String × List ImportStatement))
  | [] => .ok []
  | n :: rest =>
    match extractForNode fs n with
    | .error e => .error e
    | .ok imps =>
      match analyzeProjectImports fs rest with
      | .error e => .error e
      | .ok restImps => .ok ((n.path, imps) :: restImps)

/-- The count of leading dot characters of a module name string. -/
def leadingDots (s : String) : Nat :=
  (s.toList.takeWhile (fun c => c = '.')).length

/-- str.split with separator dot, over the character list (the kernel can
evaluate this, unlike the loop-based String.splitOn). -/
def splitCharsOnDot : List Char → List (List Char)
  | [] => [[]]
  | c :: rest =>
    let r := splitCharsOnDot rest
    if c = '.' then [] :: r
    else
      match r with
      | [] => [[c]]
      | h :: t => (c :: h) :: t

def splitOnDot (s : String) : List String :=
  (splitCharsOnDot s.toList).map (fun cs => String.mk cs)

/-- The fixed known-module set of ImportAnalyzer._is_standard_library_module
(import_analyzer.py lines 175 to 215). -/
def stdlibModules : List String :=
  ["os", "sys", "pathlib", "typing", "collections", "datetime", "json", "re",
   "logging", "argparse", "subprocess", "shutil", "tempfile", "urllib", "http",
   "socket", "threading", "multiprocessing", "asyncio", "contextlib", "functools",
   "itertools", "operator", "abc", "enum", "dataclasses", "typing_extensions",
   "pydantic", "numpy", "pandas", "matplotlib", "requests", "flask", "django",
   "sqlalchemy", "pytest", "unittest", "mock", "pytest_mock"]

/-- ImportAnalyzer._is_standard_library_module: exact match or first dotted
component match. -/
def isStandardLibraryModule (m : String) : Bool :=
  m ∈ stdlibModules || (splitOnDot m).headD "" ∈ stdlibModules

/-- ImportAnalyzer.is_external_import (import_analyzer.py lines 133 to
162): relative imports and empty names are internal; known standard
library or common third-party names are external; every other name is
internal (the _is_project_module check of the source is followed by
return False on both branches, so it cannot affect the result and is not
modelled). -/
def isExternalImport (stmt : ImportStatement) : Bool :=
  if stmt.isRelative then false
  else if stmt.moduleName = "" then false
  else if isStandardLibraryModule stmt.moduleName then true
  else false

/-!  dependency_graph_builder.py: resolution of imports to nodes. -/

/-- Path.parent iterated k times (each step drops the last component). -/
def parentIter : Nat → List String → List String
  | 0, p => p
  | k + 1, p => parentIter k p.dropLast

/-- The string that remains after the leading dots. -/
def afterDots (s : String) : String :=
  String.mk (s.toList.drop (leadingDots s))

/-- DependencyGraphBuilder._resolve_relative_import (lines 105 to 140).
The branch condition is whether the module NAME starts with a dot; the
relative_level field is never consulted.  The ImportExtractor stores
relative names without their dots (ast gives node.module undotted), so for
every statement it produces the else branch resolves the import against
the PROJECT ROOT as <root>/<module_name>.py.  The resolved path is
accepted only when it is a key of module_path_map, the path map of the
working set. -/
def resolveRelativeImport (projectRoot : List String) (workingSet : List (List String))
    (stmt : ImportStatement) (sourcePath : List String) : Option (List String) :=
  let target :=
    if 0 < leadingDots stmt.moduleName then
      let dots := leadingDots stmt.moduleName
      let targetModule := afterDots stmt.moduleName
      if dots = 1 then sourcePath.dropLast ++ [targetModule ++ ".py"]
      else parentIter (dots - 1) sourcePath.dropLast ++ [targetModule ++ ".py"]
    else projectRoot ++ [stmt.moduleName ++ ".py"]
  if target ∈ workingSet then some target else none

/-- DependencyGraphBuilder._resolve_absolute_import (lines 142 to 158):
<root>/<module_name>.py, accepted when present in the working set. -/
def resolveAbsoluteImport (projectRoot : List String) (workingSet : List (List String))
    (stmt : ImportStatement) : Option (List String) :=
  let target := projectRoot ++ [stmt.moduleName ++ ".py"]
  if target ∈ workingSet then some target else none

/-- DependencyGraphBuilder._resolve_import_to_module (lines 89 to 103). -/
def resolveImportToModule (projectRoot : List String) (workingSet : List (List String))
    (stmt : ImportStatement) (sourcePath : List String) : Option (List String) :=
  if stmt.isRelative then resolveRelativeImport projectRoot workingSet stmt sourcePath
  else resolveAbsoluteImport projectRoot workingSet stmt

/-- Resolution of a relative import as the specification words it
(section 4.3): starting from the directory of the importing file, go up
(L - 1) parent directories where L is the relative level (L = 1 means the
same directory), descend along the dotted module name components, and
accept <path>/__init__.py or <path>.py when the result is the path of a
node of the working set.  Stated here only to be compared against the
source function above. -/
def specResolveRelativeImport (workingSet : List (List String))
    (stmt : ImportStatement) (sourcePath : List String) : Option (List String) :=
  let baseDir := parentIter (stmt.relativeLevel - 1) sourcePath.dropLast
  let comps := if stmt.moduleName = "" then [] else splitOnDot stmt.moduleName
  let asPkg := baseDir ++ comps ++ ["__init__.py"]
  let asMod := match comps.reverse with
    | [] => baseDir ++ ["__init__.py"]
    | last :: revInit => baseDir ++ revInit.reverse ++ [last ++ ".py"]
  if asPkg ∈ workingSet then some asPkg
  else if asMod ∈ workingSet then some asMod
  else none

/-- Node.import_statements assignment of DependencyGraphBuilder.build_graph
(lines 56 to 58). -/
def storeImports (s : Store) (proj : List (List String × List ImportStatement)) : Store :=
  s.map (fun n =>
    match proj.find? (fun e => e.1 = n.path) with
    | some e => { n with importStatements := e.2 }
    | none => n)

/-- DependencyGraphBuilder._build_dependencies (lines 65 to 87): for every
module of the import table, skip external imports, resolve the remaining
ones against the working set and add an edge for each hit that is not the
source itself. -/
def buildDepStep (projectRoot : List String) (workingSet : List (List String))
    (sourcePath : List String) (acc : Store) (stmt : ImportStatement) : Store :=
  if isExternalImport stmt then acc
  else
    match resolveImportToModule projectRoot workingSet stmt sourcePath with
    | some target => if target = sourcePath then acc else addDependency acc sourcePath target
    | none => acc

def buildDepsForModule (projectRoot : List String) (workingSet : List (List String))
    (sourcePath : List String) (stmts : List ImportStatement) (s : Store) : Store :=
  stmts.foldl (buildDepStep projectRoot workingSet sourcePath) s

def buildDepsEntry (projectRoot : List String) (acc : Store)
    (e : List String × List ImportStatement) : Store :=
  match lookupNode acc e.1 with
  | none => acc
  | some _ => buildDepsForModule projectRoot (pathsOf acc) e.1 e.2 acc

def buildDependencies (projectRoot : List String) (s : Store)
    (proj : List (List String × List ImportStatement)) : Store :=
  proj.foldl (buildDepsEntry projectRoot) s

def c8BadNode : NodeData :=
  { path := ["proj", "bad.py"], name := "bad",
    content := some (.invalid "invalid syntax at line 3") }

def c8GoodNode : NodeData :=
  { path := ["proj", "good.py"], name := "good", content := some (.parsed []) }

def c5Root : NodeData := { path := ["proj"], name := "proj", isRoot := true }

def c5Pkg : NodeData := { path := ["proj", "pkg"], name := "pkg", isPackage := true }

def c5Main : NodeData := { path := ["proj", "pkg", "main.py"], name := "main" }

def c5Utils : NodeData := { path := ["proj", "pkg", "utils.py"], name := "utils" }

def c5Store : Store := [c5Root, c5Pkg, c5Main, c5Utils]

/-- The statement the extractor produces for from .utils import f inside
pkg/main.py: module name utils with no dots (ast strips them), relative
with level 1. -/
def c5Stmt : ImportStatement :=
  { moduleName := "utils", fromImport := true, importedItems := ["f"],
    lineNumber := 1, isRelative := true, relativeLevel := 1 }

/-!  llm_client.py prompt builders: signatures and calls.

The claims only depend on the parameter lists of the two builders and on
the keyword arguments their callers pass, so the prompt text itself (a
specification non-goal) is assembled schematically. -/

/-- The state of the LLM client object: whether _configure_api produced a
model, and the backend behind model.generate_content. -/
structure LLMClientState where
  modelConfigured : Bool
  backend : LLMBackend

/-- The parameters of LLMClient.generate_module_documentation
(llm_client.py line 185), self excluded: module_name and module_content.
There is no dependency_context parameter and no keyword catch-all. -/
def generateModuleDocumentationParams : List String := ["module_name", "module_content"]

/-- The parameters of LLMClient.generate_package_documentation
(llm_client.py line 132), self excluded: package_name, children_docs,
init_content.  There is no dependency_context parameter. -/
def generatePackageDocumentationParams : List String :=
  ["package_name", "children_docs", "init_content"]

/-- Binding check of a Python call: a keyword argument whose name is not
among the parameters raises TypeError before the body runs.  (CPython
quotes the offending name in the message; the quotes are left out
here.) -/
def pyCallKwargCheck (funcName : String) (params : List String) (kwargs : List String) :
    Except PyErr Unit :=
  match kwargs.find? (fun k => !(params.contains k)) with
  | some k =>
    .error (.typeError (funcName ++ "() got an unexpected keyword argument " ++ k))
  | none => .ok ()

/-- Rendering of the dependency_context.j2 template (the template file is
not part of the source tree; the rendered text reaches no verified
behaviour because the call it is passed to fails its binding check). -/
def renderDependencyContext (m : List (String × String)) : String :=
  String.intercalate "\n" (m.map (fun e => e.1 ++ ": " ++ e.2))

/-- The dep_context_str computation shared by _document_module and
_document_package (documentation_generator.py lines 412 to 416 and 435 to
439): empty unless the dependency_context dict is truthy. -/
def depContextStr (depCtx : Option (List (String × String))) : String :=
  match depCtx with
  | none => ""
  | some m => if m = [] then "" else renderDependencyContext m

/-- DocumentationGenerator._document_module (documentation_generator.py
lines 422 to 443): render the context, then call
generate_module_documentation(node.name, node.content,
dependency_context=dep_context_str).  The keyword is not a parameter of
the callee, so the call raises TypeError; the body behind the binding
check is the prompt assembly and generate_documentation call it would
perform. -/
def documentModule (llm : LLMClientState) (n : NodeData)
    (depCtx : Option (List (String × String))) : Except PyErr String :=
  let _ctx := depContextStr depCtx
  match pyCallKwargCheck "generate_module_documentation" generateModuleDocumentationParams
      ["dependency_context"] with
  | .error e => .error e
  | .ok _ =>
    (generateDocumentation llm.modelConfigured llm.backend).1

/-- DocumentationGenerator._document_package (documentation_generator.py
lines 390 to 420): children documentation and init content are assembled
first (collaborator glue, passed in), then
generate_package_documentation(node.name, children_docs, init_content,
dependency_context=dep_context_str) is called; the keyword is not a
parameter of the callee, so the call raises TypeError. -/
def documentPackage (llm : LLMClientState) (_childrenDocs : List String)
    (_initContent : Option String) (n : NodeData)
    (depCtx : Option (List (String × String))) : Except PyErr String :=
  let _ctx := depContextStr depCtx
  match pyCallKwargCheck "generate_package_documentation" generatePackageDocumentationParams
      ["dependency_context"] with
  | .error e => .error e
  | .ok _ =>
    (generateDocumentation llm.modelConfigured llm.backend).1

/-!  documentation_generator.py: the dependency-aware scheduler
     (_document_with_dependency_graph, lines 72 to 264). -/

/-- The per-node events of one scheduler run, in program order.  genFailed
records an exception raised while generating (or a save failure re-raised
inside the try block records saveFailed); these two are the failure
events. -/
inductive SchedEvent where
  | skippedProcessed (p : List String)
  | skippedCycle (p : List String)
  | cacheHit (p : List String)
  | genOk (p : List String)
  | genFailed (p : List String) (e : PyErr)
  | cacheWrite (p : List String)
  | saveOk (p : List String)
  | saveFailed (p : List String)
deriving Repr, DecidableEq

def SchedEvent.isFailure : SchedEvent → Bool
  | .genFailed _ _ => true
  | .saveFailed _ => true
  | _ => false

/-- The external collaborators of one scheduler run (spec section 6): the
file system behind content-less nodes, the generation step for packages,
modules and the project root, the persistence sink (file_manager.
save_documentation returning success), and the cache.  cachedFresh is the
fresh-hit view of the cache at run start: the stored text when is_cached
compares equal for the path, none otherwise. -/
structure SchedulerConfig where
  fs : List String → Option PySource
  genModule : Store → NodeData → List (String × String) → Except PyErr String
  genPackage : Store → NodeData → List (String × String) → Except PyErr String
  genRoot : Store → NodeData → Except PyErr String
  save : NodeData → String → Bool
  cacheEnabled : Bool
  forceRegenerate : Bool
  cachedFresh : List String → Option String

/-- The cached-documentation check of the scheduler (lines 130 to 136 and
198 to 208): only consulted when a cache is configured and regeneration is
not forced. -/
def cacheLookup (cfg : SchedulerConfig) (p : List String) : Option String :=
  if cfg.cacheEnabled && !cfg.forceRegenerate then cfg.cachedFresh p else none

/-- The documentation summary a dependency contributes (lines 341 to 348):
the first 200 characters of its documentation, with an ellipsis when
truncated. -/
def summarizeDoc (d : String) : String :=
  if 200 < d.length then d.take 200 ++ "..." else d

/-- DocumentationGenerator._get_dependency_context (lines 321 to 349):
for each dependency outside the excluded set whose documentation is truthy
and which is processed, map its name to the summary. -/
def getDependencyContext (st : Store) (n : NodeData) (exclude : List (List String)) :
    List (String × String) :=
  n.dependencies.filterMap (fun p =>
    if p ∈ exclude then none
    else
      match lookupNode st p with
      | none => none
      | some dep =>
        match dep.documentation with
        | none => none
        | some d => if d ≠ "" ∧ dep.processed then some (dep.name, summarizeDoc d) else none)

/-- One iteration of the main documentation loop (lines 116 to 184) for
one node of the documentation order: skip when already processed or part
of a cycle, otherwise serve from the cache or generate, write the cache,
persist, and mark processed.  A generation exception or a save failure is
re-thrown as DocumentationError after recording an Error: marker in the
documentation field and resetting processed. -/
def processMainNode (cfg : SchedulerConfig) (cyclePaths : List (List String))
    (st : Store) (n : NodeData) : List SchedEvent × Store × Option PyErr :=
  let cur := (lookupNode st n.path).getD n
  if cur.processed then ([.skippedProcessed n.path], st, none)
  else if n.path ∈ cyclePaths then ([.skippedCycle n.path], st, none)
  else
    match cacheLookup cfg n.path with
    | some doc =>
      ([.cacheHit n.path],
        updateNode st n.path (fun m => { m with documentation := some doc, processed := true }),
        none)
    | none =>
      let ctx := getDependencyContext st cur []
      match (if cur.isPackage then cfg.genPackage st cur ctx else cfg.genModule st cur ctx) with
      | .error e =>
        ([.genFailed n.path e],
          updateNode st n.path (fun m =>
            { m with
              documentation := some ("Error: Failed to generate documentation: " ++ e.str),
              processed := false }),
          some (.documentationError ("Failed to document " ++ cur.name)))
      | .ok doc =>
        let st1 := updateNode st n.path (fun m => { m with documentation := some doc })
        let evCache := if cfg.cacheEnabled then [SchedEvent.cacheWrite n.path] else []
        if cfg.save cur doc then
          ([SchedEvent.genOk n.path] ++ evCache ++ [SchedEvent.saveOk n.path],
            updateNode st1 n.path (fun m => { m with processed := true }), none)
        else
          ([SchedEvent.genOk n.path] ++ evCache ++ [SchedEvent.saveFailed n.path],
            updateNode st1 n.path (fun m =>
              { m with
                documentation := some ("Error: Failed to generate documentation: " ++
                  "Failed to save documentation for " ++ cur.name),
                processed := false }),
            some (.documentationError ("Failed to document " ++ cur.name)))

/-- The main documentation loop over the computed order, aborting at the
first raised exception. -/
def mainLoop (cfg : SchedulerConfig) (cyclePaths : List (List String)) :
    List NodeData → Store → List SchedEvent × Store × Option PyErr
  | [], st => ([], st, none)
  | n :: rest, st =>
    match processMainNode cfg cyclePaths st n with
    | (evs, st1, some e) => (evs, st1, some e)
    | (evs, st1, none) =>
      let r := mainLoop cfg cyclePaths rest st1
      (evs ++ r.1, r.2.1, r.2.2)

/-- One member of one cycle group (lines 191 to 249): like the main loop,
but the dependency context excludes the other members of the cycle, and
the except handler does NOT re-raise: a generation exception or a save
failure records the Error: marker and the loop continues. -/
def processCycleNode (cfg : SchedulerConfig) (cycPaths : List (List String))
    (st : Store) (n : NodeData) : List SchedEvent × Store :=
  let cur := (lookupNode st n.path).getD n
  if cur.processed then ([], st)
  else
    match cacheLookup cfg n.path with
    | some doc =>
      ([.cacheHit n.path],
        updateNode st n.path (fun m => { m with documentation := some doc, processed := true }))
    | none =>
      let ctx := getDependencyContext st cur cycPaths
      match (if cur.isPackage then cfg.genPackage st cur ctx else cfg.genModule st cur ctx) with
      | .error e =>
        ([.genFailed n.path e],
          updateNode st n.path (fun m =>
            { m with
              documentation := some ("Error: Failed to generate documentation: " ++ e.str),
              processed := false }))
      | .ok doc =>
        let st1 := updateNode st n.path (fun m => { m with documentation := some doc })
        let evCache := if cfg.cacheEnabled then [SchedEvent.cacheWrite n.path] else []
        if cfg.save cur doc then
          ([SchedEvent.genOk n.path] ++ evCache ++ [SchedEvent.saveOk n.path],
            updateNode st1 n.path (fun m => { m with processed := true }))
        else
          ([SchedEvent.genOk n.path] ++ evCache ++ [SchedEvent.saveFailed n.path],
            updateNode st1 n.path (fun m =>
              { m with
                documentation := some ("Error: Failed to generate documentation: " ++
                  "Failed to save documentation for " ++ cur.name),
                processed := false }))

def processCycleGroup (cfg : SchedulerConfig) (cycPaths : List (List String)) :
    List NodeData → Store → List SchedEvent × Store
  | [], st => ([], st)
  | n :: rest, st =>
    let r1 := processCycleNode cfg cycPaths st n
    let r2 := processCycleGroup cfg cycPaths rest r1.2
    (r1.1 ++ r2.1, r2.2)

/-- The cycle handling loop of the scheduler (lines 186 to 249). -/
def cycleLoop (cfg : SchedulerConfig) :
    List (List NodeData) → Store → List SchedEvent × Store
  | [], st => ([], st)
  | cyc :: rest, st =>
    let r1 := processCycleGroup cfg (cyc.map (fun n => n.path)) cyc st
    let r2 := cycleLoop cfg rest r1.2
    (r1.1 ++ r2.1, r2.2)

/-- The final root documentation step (lines 251 to 258): only when the
argument node is the root and still unprocessed; a generation exception
propagates (there is no handler), but a save failure is silently ignored
and the node is simply not marked processed. -/
def rootStep (cfg : SchedulerConfig) (root : NodeData) (st : Store) :
    List SchedEvent × Store × Option PyErr :=
  let cur := (lookupNode st root.path).getD root
  if root.isRoot && !cur.processed then
    match cfg.genRoot st cur with
    | .error e => ([.genFailed root.path e], st, some e)
    | .ok doc =>
      let st1 := updateNode st root.path (fun m => { m with documentation := some doc })
      if cfg.save cur doc then
        ([SchedEvent.genOk root.path, SchedEvent.saveOk root.path],
          updateNode st1 root.path (fun m => { m with processed := true }), none)
      else
        ([SchedEvent.genOk root.path, SchedEvent.saveFailed root.path], st1, none)
  else ([], st, none)

/-- The documentation-order computation of the scheduler (lines 102 to
108): analyzer get_documentation_order guarded by except ValueError with
the dependency-count fallback.  Both this handler and the one inside
get_documentation_order are dead for cyclic graphs, which raise
NetworkXUnfeasible. -/
def getDocumentationOrderSched (st : Store) : Except PyErr (List NodeData) :=
  match getDocumentationOrder st with
  | .ok l => .ok l
  | .error (.valueError _) => .ok (sortByDepCount st)
  | .error e => .error e

/-- The module tree handed to the scheduler: one ModuleNode with its
children (the children field of the Python dataclass). -/
inductive ModTree where
  | node (data : NodeData) (children : List ModTree)

def ModTree.data : ModTree → NodeData
  | .node d _ => d

mutual

/-- DocumentationGenerator._get_all_nodes (lines 306 to 319): the node
followed by the flattening of its children, in order. -/
def ModTree.flatten : ModTree → List NodeData
  | .node d cs => d :: flattenForest cs

def flattenForest : List ModTree → List NodeData
  | [] => []
  | t :: ts => t.flatten ++ flattenForest ts

end

/-- The cycle_nodes set of the scheduler (lines 98 to 100), as the paths
of the union of the detected cycles. -/
def cyclePathsOf (cycles : List (List NodeData)) : List (List String) :=
  (cycles.flatMap id).map (fun n => n.path)

/-- The outcome of one dependency-aware run: the event trace, the final
heap, and the returned documentation or the raised exception. -/
structure RunResult where
  events : List SchedEvent
  finalStore : Store
  result : Except PyErr String

/-- DocumentationGenerator._document_with_dependency_graph (lines 72 to
264): flatten the tree, analyze imports and build the dependency graph
(both may raise), detect cycles, compute the documentation order (raises
NetworkXUnfeasible on a cyclic graph, see above), run the main loop, the
cycle loop, and the root step, and return the root documentation. -/
def documentWithDependencyGraph (cfg : SchedulerConfig) (tree : ModTree) : RunResult :=
  let allNodes := tree.flatten
  let rootData := tree.data
  match analyzeProjectImports cfg.fs allNodes with
  | .error e => ⟨[], allNodes, .error e⟩
  | .ok proj =>
    let st1 := buildDependencies rootData.path (storeImports allNodes proj) proj
    let cycles := detectCycles st1
    let cyclePaths := cyclePathsOf cycles
    match getDocumentationOrderSched st1 with
    | .error e => ⟨[], st1, .error e⟩
    | .ok docOrder =>
      match mainLoop cfg cyclePaths docOrder st1 with
      | (ev1, st2, some e) => ⟨ev1, st2, .error e⟩
      | (ev1, st2, none) =>
        let rc := cycleLoop cfg cycles st2
        match rootStep cfg rootData rc.2 with
        | (ev3, st4, some e) => ⟨ev1 ++ rc.1 ++ ev3, st4, .error e⟩
        | (ev3, st4, none) =>
          ⟨ev1 ++ rc.1 ++ ev3, st4,
            .ok (((lookupNode st4 rootData.path).bind (fun m => m.documentation)).getD "")⟩

/-- The TypeError message of the failing generation call for a module or a
package node. -/
def kwargErrMsg (isPkg : Bool) : String :=
  (if isPkg then "generate_package_documentation" else "generate_module_documentation")
    ++ "() got an unexpected keyword argument dependency_context"

/-- The scheduler configuration wired to the real generation callees of
documentation_generator.py lines 145 to 154 and 219 to 227: the package
and module branches call _document_package and _document_module, which in
turn call the two llm_client builders with the dependency_context keyword;
no cache is configured. -/
def c6Config (llm : LLMClientState) (save : NodeData → String → Bool)
    (fs : List String → Option PySource) : SchedulerConfig :=
  { fs := fs,
    genModule := fun _st n ctx => documentModule llm n (some ctx),
    genPackage := fun _st n ctx => documentPackage llm [] none n (some ctx),
    genRoot := fun _st _n => .ok "",
    save := save,
    cacheEnabled := false,
    forceRegenerate := false,
    cachedFresh := fun _ => none }

def llmW : LLMClientState := { modelConfigured := true, backend := fun _ => .error "down" }

def wNode : NodeData := { path := ["proj", "w.py"], name := "w" }

/-- The node at path p exists and is marked processed. -/
def processedAt (st : Store) (p : List String) : Prop :=
  ∃ m, lookupNode st p = some m ∧ m.processed = true

/-- The identity-relevant projection of the heap: paths and names in
order.  The builder mutations touch neither. -/
def shadowOf (s : Store) : List (List String × String) :=
  s.map (fun n => (n.path, n.name))

def c4RootW : NodeData :=
  { path := ["proj"], name := "proj", isRoot := true, content := some (.parsed []) }

def c4Tree : ModTree := .node c4RootW []

def c4Cfg : SchedulerConfig :=
  { fs := fun _ => none,
    genModule := fun _ _ _ => .ok "module docs",
    genPackage := fun _ _ _ => .ok "package docs",
    genRoot := fun _ _ => .ok "root docs",
    save := fun _ _ => true,
    cacheEnabled := false,
    forceRegenerate := false,
    cachedFresh := fun _ => none }

/-!  Theorems. -/

/-!  Basic facts about the heap model. -/

theorem lookupNode_some_path {s : Store} {p : List String} {n : NodeData}
    (h : lookupNode s p = some n) : n.path = p := by
  have := List.find?_some h
  simpa using this

theorem lookupNode_some_mem {s : Store} {p : List String} {n : NodeData}
    (h : lookupNode s p = some n) : n ∈ s :=
  List.mem_of_find?_eq_some h

theorem pathGuard_path {p : List String} {f : NodeData → NodeData}
    (hf : ∀ n, (f n).path = n.path) (n : NodeData) : (pathGuard p f n).path = n.path := by
  unfold pathGuard
  by_cases hp : n.path = p <;> simp [hp, hf n]

theorem addDepSrc_path (b : List String) (n : NodeData) : (addDepSrc b n).path = n.path := by
  unfold addDepSrc
  by_cases h : b ∈ n.dependencies <;> simp [h]

theorem addDepDst_path (a : List String) (n : NodeData) : (addDepDst a n).path = n.path := by
  unfold addDepDst
  by_cases h : a ∈ n.dependents <;> simp [h]

theorem removeDepSrc_path (b : List String) (n : NodeData) :
    (removeDepSrc b n).path = n.path := by
  unfold removeDepSrc
  by_cases h : b ∈ n.dependencies <;> simp [h]

theorem removeDepDst_path (a : List String) (n : NodeData) :
    (removeDepDst a n).path = n.path := by
  unfold removeDepDst
  by_cases h : a ∈ n.dependents <;> simp [h]

/-- Looking a path up after a path-preserving pointwise update. -/
theorem lookupNode_updateNode (s : Store) (p q : List String) (f : NodeData → NodeData)
    (hf : ∀ n, (f n).path = n.path) :
    lookupNode (updateNode s p f) q = (lookupNode s q).map (pathGuard p f) := by
  induction s with
  | nil => rfl
  | cons n rest ih =>
    have hpath : (pathGuard p f n).path = n.path := pathGuard_path hf n
    have hexp : updateNode (n :: rest) p f = pathGuard p f n :: updateNode rest p f := by
      simp [updateNode]
    by_cases hq : n.path = q
    · unfold lookupNode
      rw [hexp, List.find?_cons_of_pos _ (by simpa [hpath] using hq),
        List.find?_cons_of_pos _ (by simpa using hq)]
      simp
    · unfold lookupNode
      rw [hexp, List.find?_cons_of_neg _ (by simp [hpath, hq]),
        List.find?_cons_of_neg _ (by simp [hq])]
      exact ih

theorem pathsOf_updateNode (s : Store) (p : List String) (f : NodeData → NodeData)
    (hf : ∀ n, (f n).path = n.path) :
    pathsOf (updateNode s p f) = pathsOf s := by
  induction s with
  | nil => rfl
  | cons n rest ih =>
    have hpath : (pathGuard p f n).path = n.path := pathGuard_path hf n
    simp only [updateNode, pathsOf, List.map_cons] at *
    rw [hpath, ih]

theorem mem_pathsOf {s : Store} {p : List String} :
    p ∈ pathsOf s ↔ ∃ n ∈ s, n.path = p := by
  simp [pathsOf, List.mem_map]

theorem lookupNode_none_iff {s : Store} {p : List String} :
    lookupNode s p = none ↔ p ∉ pathsOf s := by
  unfold lookupNode
  rw [List.find?_eq_none]
  simp [mem_pathsOf]

theorem mem_pathsOf_of_lookup {s : Store} {p : List String} {n : NodeData}
    (h : lookupNode s p = some n) : p ∈ pathsOf s := by
  rw [mem_pathsOf]
  exact ⟨n, lookupNode_some_mem h, lookupNode_some_path h⟩

/-- The full effect of add_dependency on the node stored at a path. -/
theorem lookupNode_addDependency (s : Store) (a b p : List String) :
    lookupNode (addDependency s a b) p
      = (lookupNode s p).map (fun n => pathGuard b (addDepDst a) (pathGuard a (addDepSrc b) n)) := by
  unfold addDependency
  rw [lookupNode_updateNode _ _ _ _ (addDepDst_path a),
    lookupNode_updateNode _ _ _ _ (addDepSrc_path b), Option.map_map]
  rfl

/-- The full effect of remove_dependency on the node stored at a path. -/
theorem lookupNode_removeDependency (s : Store) (a b p : List String) :
    lookupNode (removeDependency s a b) p
      = (lookupNode s p).map (fun n =>
          pathGuard b (removeDepDst a) (pathGuard a (removeDepSrc b) n)) := by
  unfold removeDependency
  rw [lookupNode_updateNode _ _ _ _ (removeDepDst_path a),
    lookupNode_updateNode _ _ _ _ (removeDepSrc_path b), Option.map_map]
  rfl

theorem pathsOf_addDependency (s : Store) (a b : List String) :
    pathsOf (addDependency s a b) = pathsOf s := by
  unfold addDependency
  rw [pathsOf_updateNode _ _ _ (addDepDst_path a), pathsOf_updateNode _ _ _ (addDepSrc_path b)]

theorem pathsOf_removeDependency (s : Store) (a b : List String) :
    pathsOf (removeDependency s a b) = pathsOf s := by
  unfold removeDependency
  rw [pathsOf_updateNode _ _ _ (removeDepDst_path a),
    pathsOf_updateNode _ _ _ (removeDepSrc_path b)]

theorem mem_depsAt_addDependency (s : Store) (a b p q : List String) :
    q ∈ depsAt (addDependency s a b) p
      ↔ q ∈ depsAt s p ∨ (p = a ∧ q = b ∧ p ∈ pathsOf s) := by
  unfold depsAt
  rw [lookupNode_addDependency]
  cases hl : lookupNode s p with
  | none =>
    have hnp : p ∉ pathsOf s := lookupNode_none_iff.mp hl
    simp [hnp]
  | some n =>
    have hp : n.path = p := lookupNode_some_path hl
    have hmem : p ∈ pathsOf s := mem_pathsOf_of_lookup hl
    by_cases ha : n.path = a <;> by_cases hb : b ∈ n.dependencies <;>
      by_cases hd : a ∈ n.dependents <;>
        simp_all [pathGuard, addDepSrc, addDepDst, List.mem_append] <;>
          split <;> simp_all <;> tauto

theorem mem_depdAt_addDependency (s : Store) (a b q x : List String) :
    x ∈ depdAt (addDependency s a b) q
      ↔ x ∈ depdAt s q ∨ (q = b ∧ x = a ∧ q ∈ pathsOf s) := by
  unfold depdAt
  rw [lookupNode_addDependency]
  cases hl : lookupNode s q with
  | none =>
    have hnp : q ∉ pathsOf s := lookupNode_none_iff.mp hl
    simp [hnp]
  | some n =>
    have hp : n.path = q := lookupNode_some_path hl
    have hmem : q ∈ pathsOf s := mem_pathsOf_of_lookup hl
    by_cases ha : n.path = a <;> by_cases hb : b ∈ n.dependencies <;>
      by_cases hd : a ∈ n.dependents <;>
        simp_all [pathGuard, addDepSrc, addDepDst, List.mem_append] <;>
          split <;> simp_all <;> tauto

theorem mem_depsAt_removeDependency (s : Store) (a b p q : List String)
    (hnd : ∀ n ∈ s, n.dependencies.Nodup) :
    q ∈ depsAt (removeDependency s a b) p
      ↔ q ∈ depsAt s p ∧ ¬(p = a ∧ q = b) := by
  unfold depsAt
  rw [lookupNode_removeDependency]
  cases hl : lookupNode s p with
  | none => simp
  | some n =>
    have hp : n.path = p := lookupNode_some_path hl
    have hnodup : n.dependencies.Nodup := hnd n (lookupNode_some_mem hl)
    by_cases ha : n.path = a <;> by_cases hb : b ∈ n.dependencies <;>
      by_cases hd : a ∈ n.dependents <;>
        simp_all [pathGuard, removeDepSrc, removeDepDst, List.Nodup.mem_erase_iff] <;>
          split <;> simp_all [List.Nodup.mem_erase_iff] <;> aesop

theorem mem_depdAt_removeDependency (s : Store) (a b q x : List String)
    (hnd : ∀ n ∈ s, n.dependents.Nodup) :
    x ∈ depdAt (removeDependency s a b) q
      ↔ x ∈ depdAt s q ∧ ¬(q = b ∧ x = a) := by
  unfold depdAt
  rw [lookupNode_removeDependency]
  cases hl : lookupNode s q with
  | none => simp
  | some n =>
    have hp : n.path = q := lookupNode_some_path hl
    have hnodup : n.dependents.Nodup := hnd n (lookupNode_some_mem hl)
    by_cases ha : n.path = a <;> by_cases hb : b ∈ n.dependencies <;>
      by_cases hd : a ∈ n.dependents <;>
        simp_all [pathGuard, removeDepSrc, removeDepDst, List.Nodup.mem_erase_iff] <;>
          split <;> simp_all [List.Nodup.mem_erase_iff] <;> aesop

/-!  Preservation of the well-formedness of the heap by the two edge
operations, and with it the bidirectional symmetry invariant (claim C9). -/

theorem nodupLists_mem_updateNode {s : Store} {p : List String} {f : NodeData → NodeData}
    {n : NodeData} (h : n ∈ updateNode s p f) :
    ∃ m ∈ s, n = f m ∨ n = m := by
  unfold updateNode at h
  rcases List.mem_map.mp h with ⟨m, hm, heq⟩
  by_cases hp : m.path = p
  · exact ⟨m, hm, Or.inl (by rw [← heq]; simp [pathGuard, hp])⟩
  · exact ⟨m, hm, Or.inr (by rw [← heq]; simp [pathGuard, hp])⟩

theorem wf_addDependency {s : Store} (hw : WfStore s) (a b : List String) :
    WfStore (addDependency s a b) := by
  obtain ⟨hpaths, hsym, hnd⟩ := hw
  refine ⟨by rw [pathsOf_addDependency]; exact hpaths, ?_, ?_⟩
  · intro p q hp hq
    rw [pathsOf_addDependency] at hp hq
    rw [mem_depsAt_addDependency, mem_depdAt_addDependency]
    have hold := hsym p q hp hq
    constructor
    · rintro (h | ⟨h1, h2, _⟩)
      · exact Or.inl (hold.mp h)
      · exact Or.inr ⟨h2, h1, hq⟩
    · rintro (h | ⟨h1, h2, _⟩)
      · exact Or.inl (hold.mpr h)
      · exact Or.inr ⟨h2, h1, hp⟩
  · intro n hn
    unfold addDependency at hn
    rcases nodupLists_mem_updateNode hn with ⟨m, hm, hcase⟩
    rcases nodupLists_mem_updateNode hm with ⟨k, hk, hcase2⟩
    have hknd := hnd k hk
    have hmd : m.dependencies.Nodup ∧ m.dependents.Nodup := by
      rcases hcase2 with h | h
      · subst h
        unfold addDepSrc
        by_cases hb : b ∈ k.dependencies
        · simpa [hb] using hknd
        · constructor
          · simpa [hb, List.nodup_append] using hknd.1
          · simpa [hb] using hknd.2
      · subst h; exact hknd
    rcases hcase with h | h
    · subst h
      unfold addDepDst
      by_cases hb : a ∈ m.dependents
      · simpa [hb] using hmd
      · constructor
        · simpa [hb] using hmd.1
        · simpa [hb, List.nodup_append] using hmd.2
    · subst h; exact hmd

theorem wf_removeDependency {s : Store} (hw : WfStore s) (a b : List String) :
    WfStore (removeDependency s a b) := by
  obtain ⟨hpaths, hsym, hnd⟩ := hw
  refine ⟨by rw [pathsOf_removeDependency]; exact hpaths, ?_, ?_⟩
  · intro p q hp hq
    rw [pathsOf_removeDependency] at hp hq
    rw [mem_depsAt_removeDependency _ _ _ _ _ (fun n hn => (hnd n hn).1),
      mem_depdAt_removeDependency _ _ _ _ _ (fun n hn => (hnd n hn).2)]
    have hold := hsym p q hp hq
    constructor
    · rintro ⟨h1, h2⟩
      exact ⟨hold.mp h1, by tauto⟩
    · rintro ⟨h1, h2⟩
      exact ⟨hold.mpr h1, by tauto⟩
  · intro n hn
    unfold removeDependency at hn
    rcases nodupLists_mem_updateNode hn with ⟨m, hm, hcase⟩
    rcases nodupLists_mem_updateNode hm with ⟨k, hk, hcase2⟩
    have hknd := hnd k hk
    have hmd : m.dependencies.Nodup ∧ m.dependents.Nodup := by
      rcases hcase2 with h | h
      · subst h
        unfold removeDepSrc
        by_cases hb : b ∈ k.dependencies
        · exact ⟨by simpa [hb] using hknd.1.erase b, by simpa [hb] using hknd.2⟩
        · simpa [hb] using hknd
      · subst h; exact hknd
    rcases hcase with h | h
    · subst h
      unfold removeDepDst
      by_cases hb : a ∈ m.dependents
      · exact ⟨by simpa [hb] using hmd.1, by simpa [hb] using hmd.2.erase a⟩
      · simpa [hb] using hmd
    · subst h; exact hmd

theorem wf_applyEdgeOps {s : Store} (hw : WfStore s) (ops : List EdgeOp) :
    WfStore (applyEdgeOps s ops) := by
  induction ops generalizing s with
  | nil => exact hw
  | cons op rest ih =>
    cases op with
    | add a b => exact ih (wf_addDependency hw a b)
    | remove a b => exact ih (wf_removeDependency hw a b)

theorem listMap_id_of_mem {α : Type} {l : List α} {f : α → α}
    (h : ∀ x ∈ l, f x = x) : l.map f = l := by
  induction l with
  | nil => rfl
  | cons x rest ih =>
    simp only [List.map_cons]
    rw [h x (by simp), ih (fun y hy => h y (by simp [hy]))]

/-- One node of the heap is restored exactly by add_dependency followed by
remove_dependency, provided the edge was not already present on it. -/
theorem roundtrip_node (a b : List String) (n : NodeData)
    (h1 : n.path = a → b ∉ n.dependencies) (h2 : n.path = b → a ∉ n.dependents) :
    pathGuard b (removeDepDst a) (pathGuard a (removeDepSrc b)
      (pathGuard b (addDepDst a) (pathGuard a (addDepSrc b) n))) = n := by
  by_cases ha : n.path = a
  · subst ha
    by_cases hb : n.path = b
    · subst hb
      have hd1 := h1 rfl
      have hd2 := h2 rfl
      simp only [pathGuard, addDepSrc, addDepDst, removeDepSrc, removeDepDst, hd1, hd2,
        if_true, if_false, if_pos rfl]
      simp [hd1, hd2, List.erase_append_right _ hd1, List.erase_append_right _ hd2]
    · have hd1 := h1 rfl
      simp only [pathGuard, addDepSrc, addDepDst, removeDepSrc, removeDepDst]
      simp [hb, hd1, List.erase_append_right _ hd1]
  · by_cases hb : n.path = b
    · subst hb
      have hd2 := h2 rfl
      simp only [pathGuard, addDepSrc, addDepDst, removeDepSrc, removeDepDst]
      simp [ha, hd2, List.erase_append_right _ hd2]
    · simp [pathGuard, ha, hb]

/-- With pairwise distinct paths, a member node is what its path looks up. -/
theorem lookupNode_of_mem_nodup {s : Store} (hnd : (pathsOf s).Nodup) {n : NodeData}
    (hn : n ∈ s) : lookupNode s n.path = some n := by
  induction s with
  | nil => cases hn
  | cons m rest ih =>
    rcases List.mem_cons.mp hn with rfl | hmem
    · simp [lookupNode]
    · have hne : ¬ m.path = n.path := by
        intro hEq
        have : n.path ∈ pathsOf rest := mem_pathsOf.mpr ⟨n, hmem, rfl⟩
        rw [pathsOf, List.map_cons, List.nodup_cons] at hnd
        exact hnd.1 (hEq ▸ this)
      have := ih (by rw [pathsOf, List.map_cons, List.nodup_cons] at hnd; exact hnd.2) hmem
      simpa [lookupNode, List.find?_cons, hne] using this

/-- The heap effect of add_dependency followed by remove_dependency on the
same ordered pair is one pointwise map. -/
theorem addRemove_as_map (s : Store) (a b : List String) :
    removeDependency (addDependency s a b) a b
      = s.map (fun n => pathGuard b (removeDepDst a) (pathGuard a (removeDepSrc b)
          (pathGuard b (addDepDst a) (pathGuard a (addDepSrc b) n)))) := by
  unfold removeDependency addDependency updateNode
  simp only [List.map_map]
  rfl

/-- C9: for all ModuleNodes A and B, after any sequence of add_dependency
and remove_dependency calls starting from a well-formed heap, B appears in
the dependency list of A exactly when A appears in the dependent list of B:
the bidirectional edge symmetry invariant is preserved by every edge
operation. -/
theorem c9_add_remove_edge_symmetry (s : Store) (hw : WfStore s) (ops : List EdgeOp)
    (p q : List String) (hp : p ∈ pathsOf (applyEdgeOps s ops))
    (hq : q ∈ pathsOf (applyEdgeOps s ops)) :
    q ∈ depsAt (applyEdgeOps s ops) p ↔ p ∈ depdAt (applyEdgeOps s ops) q :=
  (wf_applyEdgeOps hw ops).2.1 p q hp hq

theorem c9_add_remove_edge_symmetry_witness :
    ["proj", "b.py"] ∈ depsAt (applyEdgeOps [freshNodeA, freshNodeB] c9Ops) ["proj", "a.py"]
      ↔ ["proj", "a.py"] ∈ depdAt (applyEdgeOps [freshNodeA, freshNodeB] c9Ops) ["proj", "b.py"] :=
  c9_add_remove_edge_symmetry [freshNodeA, freshNodeB]
    ⟨by decide, by
      intro p q hp hq
      simp [pathsOf, freshNodeA, freshNodeB] at hp hq
      rcases hp with rfl | rfl <;> rcases hq with rfl | rfl <;> decide, by decide⟩
    c9Ops ["proj", "a.py"] ["proj", "b.py"] (by decide) (by decide)

/-- C10 counterexample: when the edge A → B is already present,
A.add_dependency(B) followed by A.remove_dependency(B) does not restore the
original edge lists: the pre-existing edge is deleted.  This refutes the
claim quantified over every starting state of the edge lists. -/
theorem c10_add_remove_roundtrip_counterexample :
    removeDependency (addDependency [c10NodeA, c10NodeB] ["proj", "a.py"] ["proj", "b.py"])
        ["proj", "a.py"] ["proj", "b.py"]
      ≠ [c10NodeA, c10NodeB] := by
  decide

/-- C10 (amended): for all ModuleNodes A and B of a heap with distinct
paths, and every starting state of their edge lists in which the edge
A → B is not yet recorded (B not in the dependency list of A and A not in
the dependent list of B), A.add_dependency(B) followed by
A.remove_dependency(B) leaves the edge lists of every node, in particular
of A and B, exactly as they were before the two calls. -/
theorem c10_add_remove_roundtrip_amended (s : Store) (a b : List String)
    (hnd : (pathsOf s).Nodup) (hB : b ∉ depsAt s a) (hA : a ∉ depdAt s b) :
    removeDependency (addDependency s a b) a b = s := by
  rw [addRemove_as_map]
  refine listMap_id_of_mem (fun n hn => roundtrip_node a b n ?_ ?_)
  · intro hpa
    have hl : lookupNode s a = some n := by
      have := lookupNode_of_mem_nodup hnd hn
      rwa [hpa] at this
    intro hmem
    exact hB (by simpa [depsAt, hl] using hmem)
  · intro hpb
    have hl : lookupNode s b = some n := by
      have := lookupNode_of_mem_nodup hnd hn
      rwa [hpb] at this
    intro hmem
    exact hA (by simpa [depdAt, hl] using hmem)

theorem c10_add_remove_roundtrip_witness :
    removeDependency (addDependency [freshNodeA, freshNodeB] ["proj", "a.py"] ["proj", "b.py"])
        ["proj", "a.py"] ["proj", "b.py"]
      = [freshNodeA, freshNodeB] :=
  c10_add_remove_roundtrip_amended [freshNodeA, freshNodeB] ["proj", "a.py"] ["proj", "b.py"]
    (by decide) (by decide) (by decide)

/-- C1 (refuted, code bug): on the two-node graph in which a depends on b,
the topological ordering of the analyzer succeeds and returns the
dependent a BEFORE its dependency b, because the networkx digraph is built
with an edge from each node to each of its dependencies and
nx.topological_sort emits edge sources first.  The claim (for every edge
A depends-on B, the index of B is strictly below the index of A) fails:
here index a = 0 and index b = 1.  The docstring of the function and the
repository test suite both expect dependencies first. -/
theorem c1_topological_order_puts_dependents_first :
    generateTopologicalOrder [depNodeA, depNodeB] = .ok [depNodeA, depNodeB]
      ∧ ["proj", "b.py"] ∈ depNodeA.dependencies
      ∧ [depNodeA, depNodeB].indexOf depNodeB = 1
      ∧ [depNodeA, depNodeB].indexOf depNodeA = 0 := by
  refine ⟨by rfl, by decide, by decide, by decide⟩

/-- C2 (refuted, code bug): on the two-node cyclic graph a ↔ b the
topological ordering does fail, but it raises NetworkXUnfeasible, not the
documented ValueError (the handler except nx.NetworkXError of
_generate_topological_order does not match NetworkXUnfeasible, which
derives NetworkXAlgorithmError), so the except ValueError of
get_documentation_order never fires and the fallback order by ascending
dependency count is never returned: the exception propagates to the
caller. -/
theorem c2_cycle_fallback_never_returned :
    getDocumentationOrder [cycNodeA, cycNodeB]
        = .error (.networkXUnfeasible nxUnfeasibleMsg)
      ∧ generateTopologicalOrder [cycNodeA, cycNodeB]
        = .error (.networkXUnfeasible nxUnfeasibleMsg) := by
  exact ⟨by rfl, by rfl⟩

/-- C3 (refuted, code bug): on the three-node ring a → b → c → a, cycle
detection does report exactly one cycle of size 3, and
get_cycle_representatives picks exactly one member (the first of the
maximal-out-degree members), but no code of the analyzer ever assigns the
cycle_group field or the is_cycle_representative flag of any node: after
_detect_cycles and get_cycle_representatives run, every node of the ring
still carries cycle_group = None and is_cycle_representative = False,
although the foundation test suite of the repository asserts that both are
set after analysis. -/
theorem c3_cycle_metadata_never_assigned :
    detectCycles [ringNodeA, ringNodeB, ringNodeC] = [[ringNodeA, ringNodeB, ringNodeC]]
      ∧ getCycleRepresentatives [ringNodeA, ringNodeB, ringNodeC] = [ringNodeA]
      ∧ ∀ n ∈ [ringNodeA, ringNodeB, ringNodeC],
          n.cycleGroup = none ∧ n.isCycleRepresentative = false := by
  decide

/-- C7 counterexample: on a backend whose first call fails transiently and
whose second call would succeed, generate_documentation invokes the
backend exactly once and returns the string marker
Error: Failed to generate documentation: transient boom as a successful
result.  There is no retry, no exponential backoff, and no terminal error
is raised after the failure, refuting the claim that every backend call is
retried up to N times with backoff and ends in a raised terminal error. -/
theorem c7_no_retry_counterexample :
    generateDocumentation true flakyBackend
        = (.ok "Error: Failed to generate documentation: transient boom", 1)
      ∧ flakyBackend 1
        = .ok { candidates := [{ content := some { parts := ["recovered documentation"] } }] } :=
  ⟨by rfl, by rfl⟩

/-- C7 (amended): every call to generate_documentation invokes the backend
at most once (exactly once when the client is configured); a backend
failure or a malformed or empty response is reported as a returned string
that starts with Error: rather than retried or raised, and the only raised
error is the RuntimeError of an unconfigured client, which performs no
backend call at all. -/
theorem c7_single_attempt_error_string_amended (modelConfigured : Bool)
    (backend : LLMBackend) :
    (generateDocumentation modelConfigured backend).2 ≤ 1
      ∧ (modelConfigured = true → (generateDocumentation modelConfigured backend).2 = 1)
      ∧ (modelConfigured = false →
          generateDocumentation modelConfigured backend
            = (.error (.runtimeError "LLM client not properly configured"), 0))
      ∧ (∀ e, backend 0 = .error e → modelConfigured = true →
          (generateDocumentation modelConfigured backend).1
            = .ok ("Error: Failed to generate documentation: " ++ e)) := by
  cases modelConfigured with
  | false => refine ⟨by simp [generateDocumentation], by simp, by simp [generateDocumentation], by simp⟩
  | true =>
    refine ⟨?_, ?_, by simp, ?_⟩
    · cases h : backend 0 with
      | error e => simp [generateDocumentation, h]
      | ok resp =>
        rcases resp with ⟨cands⟩
        cases cands with
        | nil => simp [generateDocumentation, h]
        | cons c rest =>
          rcases c with ⟨content⟩
          cases content with
          | none => simp [generateDocumentation, h]
          | some ct =>
            rcases ct with ⟨parts⟩
            cases parts with
            | nil => simp [generateDocumentation, h]
            | cons p ps => simp [generateDocumentation, h]
    · intro _
      cases h : backend 0 with
      | error e => simp [generateDocumentation, h]
      | ok resp =>
        rcases resp with ⟨cands⟩
        cases cands with
        | nil => simp [generateDocumentation, h]
        | cons c rest =>
          rcases c with ⟨content⟩
          cases content with
          | none => simp [generateDocumentation, h]
          | some ct =>
            rcases ct with ⟨parts⟩
            cases parts with
            | nil => simp [generateDocumentation, h]
            | cons p ps => simp [generateDocumentation, h]
    · intro e he _
      simp [generateDocumentation, he]

theorem c7_single_attempt_error_string_witness :
    (generateDocumentation true flakyBackend).2 ≤ 1
      ∧ (true = true → (generateDocumentation true flakyBackend).2 = 1)
      ∧ (true = false →
          generateDocumentation true flakyBackend
            = (.error (.runtimeError "LLM client not properly configured"), 0))
      ∧ (∀ e, flakyBackend 0 = .error e → true = true →
          (generateDocumentation true flakyBackend).1
            = .ok ("Error: Failed to generate documentation: " ++ e)) :=
  c7_single_attempt_error_string_amended true flakyBackend

/-- C8 counterexample: a project whose second file has unparseable content
makes the whole-project import analysis raise SyntaxError instead of
recording an empty import list for that file: the analysis aborts, so a
syntax error in one file IS fatal for whole-project import analysis,
refuting the non-fatal half of the claim. -/
theorem c8_project_import_analysis_fatal_counterexample :
    analyzeProjectImports (fun _ => none) [c8GoodNode, c8BadNode]
      = .error (.parseError "Invalid Python syntax: invalid syntax at line 3") := by
  rfl

/-- C8 (amended): the strict single-file extractor
ImportExtractor.extract_imports signals a parse failure on unparseable
input, and the lenient analysis path ASTAnalyzer.analyze_module reports an
empty import list for unparseable input (tree building itself never
parses, so the file stays in the tree); but the whole-project import
analysis ImportAnalyzer.analyze_project_imports calls the strict extractor
with no handler, so a syntax error in any file aborts the whole analysis
with an error instead of being non-fatal. -/
theorem c8_lenient_strict_amended :
    (∀ m, extractImports (.invalid m) = .error (.parseError ("Invalid Python syntax: " ++ m)))
      ∧ (∀ m, analyzeModuleImports (.invalid m) = [])
      ∧ (∀ (fs : List String → Option PySource) (nodes : List NodeData) (n : NodeData)
          (m : String), n ∈ nodes → n.content = some (.invalid m) →
            ∃ e, analyzeProjectImports fs nodes = .error e) := by
  refine ⟨fun m => rfl, fun m => rfl, ?_⟩
  intro fs nodes
  induction nodes with
  | nil => intro n m hn; cases hn
  | cons hd rest ih =>
    intro n m hn hc
    rcases List.mem_cons.mp hn with rfl | hmem
    · refine ⟨.parseError ("Invalid Python syntax: " ++ m), ?_⟩
      simp [analyzeProjectImports, extractForNode, hc, extractImports]
    · cases hext : extractForNode fs hd with
      | error e => exact ⟨e, by simp [analyzeProjectImports, hext]⟩
      | ok imps =>
        rcases ih n m hmem hc with ⟨e, he⟩
        exact ⟨e, by simp [analyzeProjectImports, hext, he]⟩

theorem c8_lenient_strict_witness :
    (extractImports (.invalid "bad")
        = .error (.parseError ("Invalid Python syntax: " ++ "bad")))
      ∧ analyzeModuleImports (.invalid "bad") = []
      ∧ (∃ e, analyzeProjectImports (fun _ => none) [c8GoodNode, c8BadNode] = .error e) := by
  have h := c8_lenient_strict_amended
  exact ⟨h.1 "bad", h.2.1 "bad",
    h.2.2 (fun _ => none) [c8GoodNode, c8BadNode] c8BadNode "invalid syntax at line 3"
      (by decide) (by decide)⟩

/-- C5 (refuted, code bug): for the relative import from .utils import f
(level 1) in proj/pkg/main.py with proj/pkg/utils.py in the working set,
the builder resolves the import to proj/utils.py, not to the sibling
proj/pkg/utils.py: _resolve_relative_import branches on whether the module
NAME starts with a dot, which the extractor output never does, so every
relative import takes the project-root branch <root>/<name>.py.  The
resolution demanded by the claim (up L - 1 parents from the directory of
the importing file, then down the dotted components) would find
proj/pkg/utils.py.  Consequently the builder adds no dependency edge and
drops the import silently. -/
theorem c5_relative_import_resolved_from_project_root :
    resolveImportToModule ["proj"] (pathsOf c5Store) c5Stmt ["proj", "pkg", "main.py"] = none
      ∧ resolveImportToModule ["proj"] (pathsOf c5Store ++ [["proj", "utils.py"]]) c5Stmt
          ["proj", "pkg", "main.py"] = some ["proj", "utils.py"]
      ∧ specResolveRelativeImport (pathsOf c5Store) c5Stmt ["proj", "pkg", "main.py"]
          = some ["proj", "pkg", "utils.py"]
      ∧ buildDependencies ["proj"] c5Store [(["proj", "pkg", "main.py"], [c5Stmt])] = c5Store
      ∧ depsAt c5Store ["proj", "pkg", "main.py"] = [] := by
  refine ⟨by rfl, by rfl, by rfl, by rfl, by rfl⟩

/-- C6: in dependency-aware mode, for every module or package node not
served from the cache, the generator calls
generate_module_documentation / generate_package_documentation with a
dependency_context keyword argument that the signatures of those methods
do not accept, so the generation call always raises TypeError; the main
loop surfaces it as a DocumentationError for non-cycle nodes, and the
cycle loop records it as an Error: documentation string on the node
without raising. -/
theorem c6_dependency_context_typeerror :
    (∀ (llm : LLMClientState) (n : NodeData) (ctx : Option (List (String × String))),
        documentModule llm n ctx = .error (.typeError (kwargErrMsg false)))
      ∧ (∀ (llm : LLMClientState) (cds : List String) (init : Option String)
          (n : NodeData) (ctx : Option (List (String × String))),
          documentPackage llm cds init n ctx = .error (.typeError (kwargErrMsg true)))
      ∧ (∀ (llm : LLMClientState) (save : NodeData → String → Bool)
          (fs : List String → Option PySource) (st : Store) (n cur : NodeData),
          lookupNode st n.path = some cur → cur.processed = false →
          (processMainNode (c6Config llm save fs) [] st n).2.2
            = some (.documentationError ("Failed to document " ++ cur.name)))
      ∧ (∀ (llm : LLMClientState) (save : NodeData → String → Bool)
          (fs : List String → Option PySource) (cycPaths : List (List String))
          (st : Store) (n cur : NodeData),
          lookupNode st n.path = some cur → cur.processed = false →
          lookupNode (processCycleNode (c6Config llm save fs) cycPaths st n).2 n.path
            = some { cur with
                documentation := some ("Error: Failed to generate documentation: "
                  ++ kwargErrMsg cur.isPackage),
                processed := false }) := by
  have hmod : ∀ (llm : LLMClientState) (n : NodeData) (ctx : Option (List (String × String))),
      documentModule llm n ctx = .error (.typeError (kwargErrMsg false)) := by
    intro llm n ctx
    rfl
  have hpkg : ∀ (llm : LLMClientState) (cds : List String) (init : Option String)
      (n : NodeData) (ctx : Option (List (String × String))),
      documentPackage llm cds init n ctx = .error (.typeError (kwargErrMsg true)) := by
    intro llm cds init n ctx
    rfl
  refine ⟨hmod, hpkg, ?_, ?_⟩
  · intro llm save fs st n cur hl hproc
    by_cases hp : cur.isPackage <;>
      simp [processMainNode, hl, hproc, hp, cacheLookup, c6Config, hmod, hpkg, kwargErrMsg]
  · intro llm save fs cycPaths st n cur hl hproc
    have hcurpath : cur.path = n.path := lookupNode_some_path hl
    by_cases hp : cur.isPackage <;>
      simp [processCycleNode, hl, hproc, hp, cacheLookup, c6Config, hmod, hpkg,
        lookupNode_updateNode, pathGuard, hcurpath, PyErr.str, kwargErrMsg]

theorem c6_dependency_context_typeerror_witness :
    documentModule llmW wNode none = .error (.typeError (kwargErrMsg false))
      ∧ documentPackage llmW [] none wNode none = .error (.typeError (kwargErrMsg true))
      ∧ (processMainNode (c6Config llmW (fun _ _ => true) (fun _ => none)) [] [wNode] wNode).2.2
          = some (.documentationError ("Failed to document " ++ wNode.name))
      ∧ lookupNode
          (processCycleNode (c6Config llmW (fun _ _ => true) (fun _ => none)) [] [wNode] wNode).2
          wNode.path
          = some { wNode with
              documentation := some ("Error: Failed to generate documentation: "
                ++ kwargErrMsg wNode.isPackage),
              processed := false } := by
  have h := c6_dependency_context_typeerror
  exact ⟨h.1 llmW wNode none, h.2.1 llmW [] none wNode none,
    h.2.2.1 llmW (fun _ _ => true) (fun _ => none) [wNode] wNode wNode rfl rfl,
    h.2.2.2 llmW (fun _ _ => true) (fun _ => none) [] [wNode] wNode wNode rfl rfl⟩

/-!  Claim C4: the lemma chain.  First: facts about dedupFirst, the Kahn
sort (permutation, edge order) and the simple cycle enumeration, leading
to: when the topological sort succeeds, there are no simple cycles. -/

theorem mem_foldl_dedup {α : Type} [DecidableEq α] :
    ∀ (l acc : List α) (x : α),
      x ∈ l.foldl (fun acc y => if y ∈ acc then acc else acc ++ [y]) acc
        ↔ x ∈ acc ∨ x ∈ l := by
  intro l
  induction l with
  | nil => intro acc x; simp
  | cons y ys ih =>
    intro acc x
    simp only [List.foldl_cons]
    rw [ih]
    by_cases hy : y ∈ acc
    · simp only [if_pos hy, List.mem_cons]
      constructor
      · rintro (h | h)
        · exact Or.inl h
        · exact Or.inr (Or.inr h)
      · rintro (h | h | h)
        · exact Or.inl h
        · exact Or.inl (h ▸ hy)
        · exact Or.inr h
    · simp only [if_neg hy, List.mem_append, List.mem_singleton, List.mem_cons]
      tauto

theorem mem_dedupFirst {α : Type} [DecidableEq α] {l : List α} {x : α} :
    x ∈ dedupFirst l ↔ x ∈ l := by
  unfold dedupFirst
  rw [mem_foldl_dedup]
  simp

theorem nodup_foldl_dedup {α : Type} [DecidableEq α] :
    ∀ (l acc : List α), acc.Nodup →
      (l.foldl (fun acc y => if y ∈ acc then acc else acc ++ [y]) acc).Nodup := by
  intro l
  induction l with
  | nil => intro acc h; exact h
  | cons y ys ih =>
    intro acc h
    simp only [List.foldl_cons]
    by_cases hy : y ∈ acc
    · simpa [hy] using ih acc h
    · refine ih _ ?_
      simp [hy, List.nodup_append, h]

theorem nodup_dedupFirst {α : Type} [DecidableEq α] (l : List α) : (dedupFirst l).Nodup :=
  nodup_foldl_dedup l [] List.nodup_nil

/-- Every edge endpoint of the analyzer name graph is a vertex. -/
theorem nameGraph_edge_mem (s : Store) :
    ∀ e ∈ (nameGraphOf s).edges,
      e.1 ∈ (nameGraphOf s).vertices ∧ e.2 ∈ (nameGraphOf s).vertices := by
  intro e he
  unfold nameGraphOf at he ⊢
  simp only [mem_dedupFirst] at he ⊢
  constructor
  · refine List.mem_append_right _ ?_
    exact List.mem_flatMap.mpr ⟨e, he, by simp⟩
  · refine List.mem_append_right _ ?_
    exact List.mem_flatMap.mpr ⟨e, he, by simp⟩

theorem nameGraph_vertices_nodup (s : Store) : (nameGraphOf s).vertices.Nodup :=
  nodup_dedupFirst _

/-- A successful Kahn run emits a permutation of the remaining vertices. -/
theorem kahnGo_perm {edges : List (String × String)} :
    ∀ (fuel : Nat) (remaining l : List String),
      kahnGo edges fuel remaining = .ok l → l.Perm remaining := by
  intro fuel
  induction fuel with
  | zero =>
    intro remaining l h
    cases remaining with
    | nil =>
      simp only [kahnGo] at h
      cases h
      rfl
    | cons x xs => simp [kahnGo] at h
  | succ fuel ih =>
    intro remaining l h
    cases remaining with
    | nil =>
      simp only [kahnGo] at h
      cases h
      rfl
    | cons x xs =>
      simp only [kahnGo] at h
      cases hpick : pickReady (x :: xs) edges with
      | none => rw [hpick] at h; cases h
      | some n =>
        rw [hpick] at h
        dsimp only at h
        cases hrec : kahnGo edges fuel ((x :: xs).erase n) with
        | error e => rw [hrec] at h; cases h
        | ok rest =>
          rw [hrec] at h
          cases h
          have hn : n ∈ x :: xs := List.mem_of_find?_eq_some hpick
          exact ((ih _ _ hrec).cons n).trans (List.perm_cons_erase hn).symm

/-- Kahn errors are always the NetworkXUnfeasible cycle error. -/
theorem kahnGo_error {edges : List (String × String)} :
    ∀ (fuel : Nat) (remaining : List String) (e : PyErr),
      kahnGo edges fuel remaining = .error e → e = .networkXUnfeasible nxUnfeasibleMsg := by
  intro fuel
  induction fuel with
  | zero =>
    intro remaining e h
    cases remaining with
    | nil => simp [kahnGo] at h
    | cons x xs =>
      simp only [kahnGo] at h
      cases h
      rfl
  | succ fuel ih =>
    intro remaining e h
    cases remaining with
    | nil => simp [kahnGo] at h
    | cons x xs =>
      simp only [kahnGo] at h
      cases hpick : pickReady (x :: xs) edges with
      | none =>
        rw [hpick] at h
        cases h
        rfl
      | some n =>
        rw [hpick] at h
        dsimp only at h
        cases hrec : kahnGo edges fuel ((x :: xs).erase n) with
        | error e2 =>
          rw [hrec] at h
          cases h
          exact ih _ _ hrec
        | ok rest => rw [hrec] at h; cases h

/-- A successful Kahn run orders every edge whose endpoints are among the
remaining vertices source before target. -/
theorem kahnGo_respects {edges : List (String × String)} :
    ∀ (fuel : Nat) (remaining l : List String),
      kahnGo edges fuel remaining = .ok l → remaining.Nodup →
      ∀ u v, (u, v) ∈ edges → u ∈ remaining → v ∈ remaining →
        l.indexOf u < l.indexOf v := by
  intro fuel
  induction fuel with
  | zero =>
    intro remaining l h _ u v _ hu _
    cases remaining with
    | nil => cases hu
    | cons x xs => simp [kahnGo] at h
  | succ fuel ih =>
    intro remaining l h hnd u v huv hu hv
    cases remaining with
    | nil => cases hu
    | cons x xs =>
      simp only [kahnGo] at h
      cases hpick : pickReady (x :: xs) edges with
      | none => rw [hpick] at h; cases h
      | some n =>
        rw [hpick] at h
        dsimp only at h
        cases hrec : kahnGo edges fuel ((x :: xs).erase n) with
        | error e => rw [hrec] at h; cases h
        | ok rest =>
          rw [hrec] at h
          cases h
          have hready : !(edges.any (fun e => e.2 = n && decide (e.1 ∈ x :: xs))) = true := by
            have := List.find?_some hpick
            simpa using this
          have hvn : ¬ v = n := by
            intro hEq
            subst hEq
            have : edges.any (fun e => e.2 = v && decide (e.1 ∈ x :: xs)) = true :=
              List.any_eq_true.mpr ⟨(u, v), huv, by simp [hu]⟩
            rw [this] at hready
            cases hready
          by_cases hun : u = n
          · subst hun
            rw [List.indexOf_cons_self]
            rw [List.indexOf_cons_ne _ (by intro hEq; exact hvn hEq.symm)]
            exact Nat.succ_pos _
          · have hu2 : u ∈ (x :: xs).erase n := List.mem_erase_of_ne hun |>.mpr hu
            have hv2 : v ∈ (x :: xs).erase n := List.mem_erase_of_ne hvn |>.mpr hv
            have := ih _ _ hrec (hnd.erase n) u v huv hu2 hv2
            rw [List.indexOf_cons_ne _ (by intro hEq; exact hun hEq.symm),
              List.indexOf_cons_ne _ (by intro hEq; exact hvn hEq.symm)]
            exact Nat.succ_lt_succ this

/-- When a list order puts every edge source strictly before its target,
the cycle DFS finds nothing: no start vertex can be reached back. -/
theorem cyclePathsGo_nil {edges : List (String × String)} {ord : List String}
    (hEL : ∀ e ∈ edges, ord.indexOf e.1 < ord.indexOf e.2) (allowed : List String)
    (s : String) :
    ∀ (fuel : Nat) (current : String) (visited : List String),
      ord.indexOf s ≤ ord.indexOf current →
      cyclePathsGo edges allowed s fuel current visited = [] := by
  intro fuel
  induction fuel with
  | zero => intro current visited _; rfl
  | succ fuel ih =>
    intro current visited hle
    show List.flatMap _ _ = []
    rw [List.flatMap_eq_nil_iff]
    intro w hw
    have hedge : (current, w) ∈ edges := by
      rcases List.mem_map.mp hw with ⟨e, he, rfl⟩
      have := (List.mem_filter.mp he).2
      have heq : e.1 = current := by simpa using this
      have := (List.mem_filter.mp he).1
      rwa [← heq]
    have hlt : ord.indexOf current < ord.indexOf w := hEL _ hedge
    by_cases hws : w = s
    · subst hws
      exact absurd (Nat.lt_of_le_of_lt hle hlt) (Nat.lt_irrefl _)
    · simp only [if_neg hws]
      by_cases hwv : w ∈ visited
      · simp [hwv]
      · simp only [if_neg hwv]
        by_cases hwa : w ∈ allowed
        · simp only [if_pos hwa]
          exact ih w (w :: visited) (Nat.le_of_lt (Nat.lt_of_le_of_lt hle hlt))
        · simp [hwa]

theorem simpleCyclesGo_nil {edges : List (String × String)} {ord : List String}
    (hEL : ∀ e ∈ edges, ord.indexOf e.1 < ord.indexOf e.2) (fuel : Nat) :
    ∀ suffix : List String, simpleCyclesGo edges fuel suffix = [] := by
  intro suffix
  induction suffix with
  | nil => rfl
  | cons s rest ih =>
    show cyclePathsGo edges rest s fuel s [s] ++ simpleCyclesGo edges fuel rest = []
    rw [cyclePathsGo_nil hEL rest s fuel s [s] (Nat.le_refl _), ih]
    rfl

/-- When the topological sort of the analyzer name graph succeeds, the
simple cycle enumeration of the same graph is empty. -/
theorem topo_ok_no_cycles (st : Store) (names : List String)
    (h : nxTopologicalSort (nameGraphOf st) = .ok names) :
    nxSimpleCycles (nameGraphOf st) = [] := by
  have hperm : names.Perm (nameGraphOf st).vertices := kahnGo_perm _ _ _ h
  have hresp := kahnGo_respects _ _ _ h (nameGraph_vertices_nodup st)
  have hEL : ∀ e ∈ (nameGraphOf st).edges,
      names.indexOf e.1 < names.indexOf e.2 := by
    intro e he
    have hm := nameGraph_edge_mem st e he
    exact hresp e.1 e.2 he hm.1 hm.2
  exact simpleCyclesGo_nil hEL _ _

/-- Consequently the analyzer reports no cycle groups. -/
theorem topo_ok_detectCycles_nil (st : Store) (names : List String)
    (h : nxTopologicalSort (nameGraphOf st) = .ok names) :
    detectCycles st = [] := by
  unfold detectCycles
  rw [topo_ok_no_cycles st names h]
  rfl

theorem exists_lookup_of_mem_paths {st : Store} {p : List String} (h : p ∈ pathsOf st) :
    ∃ m, lookupNode st p = some m := by
  cases hl : lookupNode st p with
  | none => exact absurd h (lookupNode_none_iff.mp hl)
  | some m => exact ⟨m, rfl⟩

theorem processedAt_updateNode_mono {st : Store} {p q : List String} {f : NodeData → NodeData}
    (hf : ∀ m, (f m).path = m.path)
    (hproc : ∀ m, m.processed = true → (f m).processed = true) :
    processedAt st q → processedAt (updateNode st p f) q := by
  rintro ⟨m, hl, hp⟩
  refine ⟨pathGuard p f m, ?_, ?_⟩
  · rw [lookupNode_updateNode _ _ _ _ hf, hl]
    rfl
  · unfold pathGuard
    by_cases hm : m.path = p
    · simp [hm, hproc m hp]
    · simp [hm, hp]

theorem processedAt_updateNode_self {st : Store} {p : List String} {f : NodeData → NodeData}
    (hf : ∀ m, (f m).path = m.path) (hset : ∀ m, (f m).processed = true)
    (hmem : p ∈ pathsOf st) : processedAt (updateNode st p f) p := by
  rcases exists_lookup_of_mem_paths hmem with ⟨m, hl⟩
  have hmp : m.path = p := lookupNode_some_path hl
  refine ⟨pathGuard p f m, ?_, ?_⟩
  · rw [lookupNode_updateNode _ _ _ _ hf, hl]
    rfl
  · unfold pathGuard
    simp [hmp, hset]

/-- The complete bookkeeping of one ok iteration of the main loop: its
events carry no failure, the heap keeps its paths, processed marks are
preserved, and (outside cycle skipping) the visited node ends processed. -/
theorem processMainNode_spec (cfg : SchedulerConfig) (cyc : List (List String))
    (st : Store) (n : NodeData) (evs : List SchedEvent) (st1 : Store)
    (hstep : processMainNode cfg cyc st n = (evs, st1, none)) :
    (∀ ev ∈ evs, ev.isFailure = false)
      ∧ pathsOf st1 = pathsOf st
      ∧ (∀ q, processedAt st q → processedAt st1 q)
      ∧ (cyc = [] → n.path ∈ pathsOf st → processedAt st1 n.path) := by
  unfold processMainNode at hstep
  by_cases h1 : ((lookupNode st n.path).getD n).processed
  · rw [if_pos h1] at hstep
    obtain ⟨rfl, rfl⟩ : evs = [SchedEvent.skippedProcessed n.path] ∧ st1 = st := by
      cases hstep; exact ⟨rfl, rfl⟩
    refine ⟨by simp [SchedEvent.isFailure], rfl, fun q h => h, ?_⟩
    intro _ hmem
    rcases exists_lookup_of_mem_paths hmem with ⟨m, hl⟩
    rw [hl] at h1
    exact ⟨m, hl, h1⟩
  · rw [if_neg h1] at hstep
    by_cases h2 : n.path ∈ cyc
    · rw [if_pos h2] at hstep
      obtain ⟨rfl, rfl⟩ : evs = [SchedEvent.skippedCycle n.path] ∧ st1 = st := by
        cases hstep; exact ⟨rfl, rfl⟩
      refine ⟨by simp [SchedEvent.isFailure], rfl, fun q h => h, ?_⟩
      intro hcyc _
      rw [hcyc] at h2
      cases h2
    · rw [if_neg h2] at hstep
      cases hc : cacheLookup cfg n.path with
      | some doc =>
        rw [hc] at hstep
        dsimp only at hstep
        obtain ⟨rfl, rfl⟩ : evs = [SchedEvent.cacheHit n.path]
            ∧ st1 = updateNode st n.path
                (fun m => { m with documentation := some doc, processed := true }) := by
          cases hstep; exact ⟨rfl, rfl⟩
        refine ⟨by simp [SchedEvent.isFailure],
          pathsOf_updateNode _ _ _ (fun m => rfl), ?_, ?_⟩
        · intro q h
          exact processedAt_updateNode_mono (fun m => rfl) (fun m _ => rfl) h
        · intro _ hmem
          exact processedAt_updateNode_self (fun m => rfl) (fun m => rfl) hmem
      | none =>
        rw [hc] at hstep
        dsimp only at hstep
        cases hg : (if ((lookupNode st n.path).getD n).isPackage then
            cfg.genPackage st ((lookupNode st n.path).getD n)
              (getDependencyContext st ((lookupNode st n.path).getD n) [])
          else
            cfg.genModule st ((lookupNode st n.path).getD n)
              (getDependencyContext st ((lookupNode st n.path).getD n) [])) with
        | error e => rw [hg] at hstep; cases hstep
        | ok doc =>
          rw [hg] at hstep
          dsimp only at hstep
          by_cases hs : cfg.save ((lookupNode st n.path).getD n) doc
          · rw [if_pos hs] at hstep
            obtain ⟨rfl, rfl⟩ : evs = [SchedEvent.genOk n.path]
                  ++ (if cfg.cacheEnabled then [SchedEvent.cacheWrite n.path] else [])
                  ++ [SchedEvent.saveOk n.path]
                ∧ st1 = updateNode
                    (updateNode st n.path (fun m => { m with documentation := some doc }))
                    n.path (fun m => { m with processed := true }) := by
              cases hstep; exact ⟨rfl, rfl⟩
            refine ⟨?_, ?_, ?_, ?_⟩
            · intro ev hev
              rcases List.mem_append.mp hev with hev | hev
              · rcases List.mem_append.mp hev with hev | hev
                · simp only [List.mem_singleton] at hev
                  subst hev; rfl
                · by_cases hce : cfg.cacheEnabled
                  · rw [if_pos hce] at hev
                    simp only [List.mem_singleton] at hev
                    subst hev; rfl
                  · rw [if_neg hce] at hev
                    cases hev
              · simp only [List.mem_singleton] at hev
                subst hev; rfl
            · rw [pathsOf_updateNode _ n.path (fun m => { m with processed := true })
                  (fun m => rfl),
                pathsOf_updateNode st n.path (fun m => { m with documentation := some doc })
                  (fun m => rfl)]
            · intro q h
              exact processedAt_updateNode_mono (fun m => rfl) (fun m _ => rfl)
                (processedAt_updateNode_mono (fun m => rfl) (fun m h2 => h2) h)
            · intro _ hmem
              refine processedAt_updateNode_self (fun m => rfl) (fun m => rfl) ?_
              rw [pathsOf_updateNode st n.path (fun m => { m with documentation := some doc })
                (fun m => rfl)]
              exact hmem
          · rw [if_neg hs] at hstep
            cases hstep

/-- The main loop bookkeeping, accumulated: when no exception is raised,
the trace carries no failure event, paths survive, processed marks
survive, and every node of the processed order ends processed (no cycles
being skipped). -/
theorem mainLoop_spec (cfg : SchedulerConfig) :
    ∀ (order : List NodeData) (st : Store),
      (mainLoop cfg [] order st).2.2 = none →
      (∀ ev ∈ (mainLoop cfg [] order st).1, ev.isFailure = false)
        ∧ pathsOf (mainLoop cfg [] order st).2.1 = pathsOf st
        ∧ (∀ q, processedAt st q → processedAt (mainLoop cfg [] order st).2.1 q)
        ∧ (∀ n ∈ order, n.path ∈ pathsOf st →
            processedAt (mainLoop cfg [] order st).2.1 n.path) := by
  intro order
  induction order with
  | nil =>
    intro st _
    exact ⟨by simp [mainLoop], rfl, fun q h => h, by simp⟩
  | cons n rest ih =>
    intro st h
    rcases hstep : processMainNode cfg [] st n with ⟨evs, st1, oe⟩
    cases oe with
    | some e =>
      rw [show mainLoop cfg [] (n :: rest) st = (evs, st1, some e) by
        simp [mainLoop, hstep]] at h
      cases h
    | none =>
      have hexp : mainLoop cfg [] (n :: rest) st
          = (evs ++ (mainLoop cfg [] rest st1).1, (mainLoop cfg [] rest st1).2.1,
            (mainLoop cfg [] rest st1).2.2) := by
        simp [mainLoop, hstep]
      rw [hexp] at h ⊢
      have hr : (mainLoop cfg [] rest st1).2.2 = none := h
      have hspec := processMainNode_spec cfg [] st n evs st1 hstep
      have hih := ih st1 hr
      refine ⟨?_, ?_, ?_, ?_⟩
      · intro ev hev
        rcases List.mem_append.mp hev with hev | hev
        · exact hspec.1 ev hev
        · exact hih.1 ev hev
      · rw [hih.2.1, hspec.2.1]
      · intro q hq
        exact hih.2.2.1 q (hspec.2.2.1 q hq)
      · intro m hm hmem
        rcases List.mem_cons.mp hm with rfl | hm2
        · exact hih.2.2.1 m.path (hspec.2.2.2 rfl hmem)
        · exact hih.2.2.2 m hm2 (by rw [hspec.2.1]; exact hmem)

theorem shadowOf_updateNode (s : Store) (p : List String) (f : NodeData → NodeData)
    (hf : ∀ n, (f n).path = n.path ∧ (f n).name = n.name) :
    shadowOf (updateNode s p f) = shadowOf s := by
  induction s with
  | nil => rfl
  | cons n rest ih =>
    have hx : (pathGuard p f n).path = n.path ∧ (pathGuard p f n).name = n.name := by
      unfold pathGuard
      by_cases hp : n.path = p
      · simp [hp, hf n]
      · simp [hp]
    simp only [updateNode, shadowOf, List.map_cons] at ih ⊢
    rw [hx.1, hx.2, ih]

theorem shadowOf_addDependency (s : Store) (a b : List String) :
    shadowOf (addDependency s a b) = shadowOf s := by
  unfold addDependency
  rw [shadowOf_updateNode _ _ _ (by
      intro n; unfold addDepDst; by_cases h : a ∈ n.dependents <;> simp [h]),
    shadowOf_updateNode _ _ _ (by
      intro n; unfold addDepSrc; by_cases h : b ∈ n.dependencies <;> simp [h])]

theorem shadowOf_map (s : Store) (g : NodeData → NodeData)
    (hg : ∀ n, (g n).path = n.path ∧ (g n).name = n.name) :
    shadowOf (s.map g) = shadowOf s := by
  induction s with
  | nil => rfl
  | cons n rest ih =>
    simp only [shadowOf, List.map_cons] at ih ⊢
    rw [(hg n).1, (hg n).2, ih]

theorem shadowOf_buildDepStep (pr : List String) (ws : List (List String))
    (sp : List String) (s : Store) (stmt : ImportStatement) :
    shadowOf (buildDepStep pr ws sp s stmt) = shadowOf s := by
  unfold buildDepStep
  by_cases he : isExternalImport stmt
  · rw [if_pos he]
  · rw [if_neg he]
    cases hr : resolveImportToModule pr ws stmt sp with
    | none => rfl
    | some target =>
      dsimp only
      by_cases ht : target = sp
      · rw [if_pos ht]
      · rw [if_neg ht, shadowOf_addDependency]

theorem shadowOf_buildDepsForModule (pr : List String) (ws : List (List String))
    (sp : List String) (stmts : List ImportStatement) :
    ∀ s : Store, shadowOf (buildDepsForModule pr ws sp stmts s) = shadowOf s := by
  unfold buildDepsForModule
  induction stmts with
  | nil => intro s; rfl
  | cons stmt rest ih =>
    intro s
    simp only [List.foldl_cons]
    rw [ih (buildDepStep pr ws sp s stmt), shadowOf_buildDepStep]

theorem shadowOf_buildDepsEntry (pr : List String) (s : Store)
    (e : List String × List ImportStatement) :
    shadowOf (buildDepsEntry pr s e) = shadowOf s := by
  unfold buildDepsEntry
  cases hl : lookupNode s e.1 with
  | none => rfl
  | some _ => rw [shadowOf_buildDepsForModule]

theorem shadowOf_buildDependencies (pr : List String)
    (proj : List (List String × List ImportStatement)) :
    ∀ s : Store, shadowOf (buildDependencies pr s proj) = shadowOf s := by
  unfold buildDependencies
  induction proj with
  | nil => intro s; rfl
  | cons e rest ih =>
    intro s
    simp only [List.foldl_cons]
    rw [ih (buildDepsEntry pr s e), shadowOf_buildDepsEntry]

theorem shadowOf_storeImports (s : Store) (proj : List (List String × List ImportStatement)) :
    shadowOf (storeImports s proj) = shadowOf s := by
  unfold storeImports
  refine shadowOf_map s _ ?_
  intro n
  cases hf : proj.find? (fun e => e.1 = n.path) with
  | none => simp [hf]
  | some e => simp [hf]

theorem pathsOf_eq_shadow_fst (s : Store) : pathsOf s = (shadowOf s).map (fun e => e.1) := by
  unfold pathsOf shadowOf
  rw [List.map_map]
  rfl

theorem namesOf_eq_shadow_snd (s : Store) :
    s.map (fun n => n.name) = (shadowOf s).map (fun e => e.2) := by
  unfold shadowOf
  rw [List.map_map]
  rfl

/-- When the scheduler order computation succeeds, it is the Kahn order of
the name graph pushed through get_node_by_name (the fallback arms catch
only ValueError, which never arrives). -/
theorem docOrderSched_ok (st : Store) (l : List NodeData)
    (h : getDocumentationOrderSched st = .ok l) :
    ∃ names, nxTopologicalSort (nameGraphOf st) = .ok names
      ∧ l = names.filterMap (getNodeByName st) := by
  unfold getDocumentationOrderSched getDocumentationOrder generateTopologicalOrder at h
  cases htop : nxTopologicalSort (nameGraphOf st) with
  | ok names =>
    rw [htop] at h
    dsimp only at h
    cases h
    exact ⟨names, rfl, rfl⟩
  | error e =>
    have he : e = .networkXUnfeasible nxUnfeasibleMsg := kahnGo_error _ _ _ htop
    subst he
    rw [htop] at h
    dsimp only at h
    cases h

/-- A processed root makes the final root step a no-op. -/
theorem rootStep_processed (cfg : SchedulerConfig) (root : NodeData) (st : Store)
    (h : processedAt st root.path) : rootStep cfg root st = ([], st, none) := by
  rcases h with ⟨m, hl, hp⟩
  unfold rootStep
  rw [hl]
  simp [hp]

theorem getNodeByName_cons_self (h : NodeData) (t : Store) :
    getNodeByName (h :: t) h.name = some h := by
  simp [getNodeByName]

/-- C4: in dependency-aware mode, whenever the scheduler run returns a
documentation result (no exception propagates), no node experienced a
generation or persistence failure during the run: equivalently, a failure
generating or persisting documentation for any single node makes the whole
run fail.  This covers cycle-group members vacuously, because a graph with
any cycle makes the order computation raise NetworkXUnfeasible before any
node is processed, and it covers the root step because a successful main
loop leaves the root already processed. -/
theorem c4_node_failure_fails_whole_run (cfg : SchedulerConfig) (tree : ModTree)
    (sDoc : String)
    (hok : (documentWithDependencyGraph cfg tree).result = .ok sDoc) :
    ∀ ev ∈ (documentWithDependencyGraph cfg tree).events, ev.isFailure = false := by
  rcases tree with ⟨d, cs⟩
  simp only [documentWithDependencyGraph] at hok ⊢
  cases hai : analyzeProjectImports cfg.fs (ModTree.node d cs).flatten with
  | error e =>
    rw [hai] at hok
    dsimp only at hok
    cases hok
  | ok proj =>
    rw [hai] at hok
    dsimp only at hok ⊢
    cases hdo : getDocumentationOrderSched
        (buildDependencies (ModTree.node d cs).data.path
          (storeImports (ModTree.node d cs).flatten proj) proj) with
    | error e =>
      rw [hdo] at hok
      dsimp only at hok
      cases hok
    | ok docOrder =>
      rw [hdo] at hok
      dsimp only at hok ⊢
      obtain ⟨names, htop, hdoc⟩ := docOrderSched_ok _ _ hdo
      have hcyc : detectCycles
          (buildDependencies (ModTree.node d cs).data.path
            (storeImports (ModTree.node d cs).flatten proj) proj) = [] :=
        topo_ok_detectCycles_nil _ names htop
      rw [hcyc] at hok ⊢
      rw [show cyclePathsOf ([] : List (List NodeData)) = [] from rfl] at hok ⊢
      rcases hml : mainLoop cfg [] docOrder
          (buildDependencies (ModTree.node d cs).data.path
            (storeImports (ModTree.node d cs).flatten proj) proj) with ⟨ev1, st2, oe⟩
      rw [hml] at hok
      cases oe with
      | some e =>
        dsimp only at hok
        cases hok
      | none =>
        dsimp only at hok ⊢
        have h22 : (mainLoop cfg [] docOrder
            (buildDependencies (ModTree.node d cs).data.path
              (storeImports (ModTree.node d cs).flatten proj) proj)).2.2 = none := by
          rw [hml]
        have hspec := mainLoop_spec cfg docOrder _ h22
        rw [hml] at hspec
        dsimp only at hspec
        have hshadow : shadowOf
            (buildDependencies (ModTree.node d cs).data.path
              (storeImports (ModTree.node d cs).flatten proj) proj)
            = shadowOf ((ModTree.node d cs).flatten) := by
          rw [shadowOf_buildDependencies, shadowOf_storeImports]
        have hflat : (ModTree.node d cs).flatten = d :: flattenForest cs := rfl
        cases hst1 : buildDependencies (ModTree.node d cs).data.path
            (storeImports (ModTree.node d cs).flatten proj) proj with
        | nil =>
          rw [hst1, hflat] at hshadow
          simp [shadowOf] at hshadow
        | cons hNode t =>
          rw [hst1, hflat] at hshadow
          simp only [shadowOf, List.map_cons, List.cons.injEq, Prod.mk.injEq] at hshadow
          obtain ⟨⟨hpathEq, hnameEq⟩, _⟩ := hshadow
          have hlookupName : getNodeByName
              (buildDependencies (ModTree.node d cs).data.path
                (storeImports (ModTree.node d cs).flatten proj) proj) hNode.name
              = some hNode := by
            rw [hst1]
            exact getNodeByName_cons_self hNode t
          have hvert : hNode.name ∈ (nameGraphOf
              (buildDependencies (ModTree.node d cs).data.path
                (storeImports (ModTree.node d cs).flatten proj) proj)).vertices := by
            unfold nameGraphOf
            rw [mem_dedupFirst]
            refine List.mem_append_left _ ?_
            rw [hst1]
            simp
          have hnames : hNode.name ∈ names :=
            (kahnGo_perm _ _ _ htop).mem_iff.mpr hvert
          have hdocmem : hNode ∈ docOrder := by
            rw [hdoc]
            exact List.mem_filterMap.mpr ⟨hNode.name, hnames, hlookupName⟩
          have hmempath : hNode.path ∈ pathsOf
              (buildDependencies (ModTree.node d cs).data.path
                (storeImports (ModTree.node d cs).flatten proj) proj) := by
            rw [hst1]
            simp [pathsOf]
          have hproc : processedAt st2 hNode.path :=
            hspec.2.2.2 hNode hdocmem hmempath
          have hrootproc : processedAt st2 (ModTree.node d cs).data.path := by
            rw [show (ModTree.node d cs).data = d from rfl, ← hpathEq]
            exact hproc
          have hcl : cycleLoop cfg [] st2 = ([], st2) := rfl
          rw [hcl] at hok ⊢
          dsimp only at hok ⊢
          rw [rootStep_processed cfg _ st2 hrootproc] at hok ⊢
          dsimp only at hok ⊢
          intro ev hev
          simp only [List.append_nil] at hev
          exact hspec.1 ev hev

theorem c4_node_failure_fails_whole_run_witness :
    (documentWithDependencyGraph c4Cfg c4Tree).result = .ok "module docs"
      ∧ ∀ ev ∈ (documentWithDependencyGraph c4Cfg c4Tree).events, ev.isFailure = false :=
  ⟨by rfl, c4_node_failure_fails_whole_run c4Cfg c4Tree "module docs" (by rfl)⟩
